import Mathlib

/-!
Verification of the Liszp interpreter core (value algebra, CPS transformer,
trampolined evaluator, macro table) against its natural-language
specification.  The definitions below are shallow embeddings of the Rust
source under src/: value.rs, preprocess/cps.rs, preprocess/macros.rs and
eval/evaluator.rs.

Modelling conventions:
- rug::Integer (arbitrary-precision integer) is modelled as Int.
- rug::Float (53-bit multi-precision float) is modelled as Rat, an exact
  idealization; no claim settled here depends on rounding or on NaN.
- Rc sharing is dropped: values are a pure inductive tree.
- Fallible Rust functions returning Result<_, Error> are modelled with an
  explicit result type; Rust panics (panic!, unreachable!, .expect, .unwrap,
  index-out-of-bounds, and the numeric library aborting on integer division
  by zero) are modelled as a distinguished .panicked outcome, which is
  different from a returned Error value.
- HashMap<String, _> is modelled as an association list whose insert conses
  in front; lookup takes the most recent entry, matching HashMap semantics.
- Non-structural recursion (the CPS converter, argument binding) is given an
  explicit fuel parameter; running out of fuel is a .panicked outcome that
  never occurs in the concrete runs below.
-/

/-- The universal Liszp value (src/value.rs, enum Value). -/
inductive Value where
  | name : String → Value
  | integer : Int → Value
  | float : Rat → Value
  | string : String → Value
  | bool : Bool → Value
  | cons : Value → Value → Value
  | quote : Value → Value
  | nil : Value
deriving DecidableEq, Repr

/-- Value::name — the payload of a Name, or the empty string (value.rs). -/
def Value.nameStr : Value → String
  | .name n => n
  | _ => ""

/-- Value::cons_list — builds a proper cons list from a vector (value.rs). -/
def Value.consList (xs : List Value) : Value :=
  xs.foldr Value.cons Value.nil

/-- The cars collected by the while-let loop of Value::to_list: every car of
the leading cons chain, dropping whatever non-cons tail ends the chain. -/
def Value.toListCore : Value → List Value
  | .cons a b => a :: toListCore b
  | _ => []

/-- Value::to_list (value.rs).  Nil gives some []; a cons chain gives its
cars (an improper tail is silently dropped, since the source loop only
counts Cons nodes); any other value gives none (the count == 0 branch). -/
def Value.toList : Value → Option (List Value)
  | .nil => some []
  | .cons a b => some (a :: Value.toListCore b)
  | _ => none

/-- Value::substitute (value.rs).  The source compares nodes with
std::ptr::eq on Rc pointers; on the duplicate-free trees the reader
produces, pointer equality of a subterm found inside the tree coincides
with structural equality, which is what the embedding uses. -/
def Value.substitute (expr old new : Value) : Value :=
  if expr = old then new
  else match expr with
    | .cons car cdr => .cons (Value.substitute car old new) (Value.substitute cdr old new)
    | e => e

/-- impl PartialEq for Value (value.rs).  Note the missing String arm in the
source: two String values always fall through to the catch-all false arm. -/
def valueEq : Value → Value → Bool
  | .name a, .name b => a = b
  | .integer a, .integer b => a = b
  | .float a, .float b => a = b
  | .bool a, .bool b => a = b
  | .cons a x, .cons b y => valueEq a b && valueEq x y
  | .quote x, .quote y => valueEq x y
  | .nil, .nil => true
  | _, _ => false

/-- Result of running a piece of the interpreter: a returned value, a
returned Error (error.rs), or a host panic that aborts the process. -/
inductive EvalResult (α : Type) where
  | ok : α → EvalResult α
  | error : String → EvalResult α
  | panicked : String → EvalResult α
deriving DecidableEq, Repr

def EvalResult.bind : EvalResult α → (α → EvalResult β) → EvalResult β
  | .ok a, f => f a
  | .error e, _ => .error e
  | .panicked e, _ => .panicked e

instance : Monad EvalResult where
  pure := .ok
  bind := EvalResult.bind

/-- True when the result is a returned Error value (not a panic). -/
def EvalResult.isError : EvalResult α → Bool
  | .error _ => true
  | _ => false

/-- True when the result is a host panic. -/
def EvalResult.isPanic : EvalResult α → Bool
  | .panicked _ => true
  | _ => false

/-! ## CPS transformer (src/preprocess/cps.rs) -/

/-- The CPSConverter struct: the dfs_expr_components vector (in push order)
and the overall continuation. -/
structure CPSState where
  dfs : List Value
  continuation : Value
deriving DecidableEq, Repr

/-- CPSConverter::find_conditional — leftmost if-expression not hidden under
a lambda or quote head. -/
def findConditional : Value → Option Value
  | .cons car cdr =>
      if car.nameStr = "&if" then some (.cons car cdr)
      else if car.nameStr = "&lambda" || car.nameStr = "&quote" then none
      else match findConditional car with
        | some c => some c
        | none => findConditional cdr
  | _ => none

/-- CPSConverter::create_continuation_label.  The source computes
dfs_expr_components.len() - 1 on a usize; the embedding uses truncated Nat
subtraction (the converter never reads the label of an empty vector in the
runs proved about below). -/
def continuationLabel (st : CPSState) : Value :=
  .name ("@@k" ++ toString (st.dfs.length - 1))

/-- The loop of CPSConverter::assemble_cps_expression over the enumerated,
reversed dfs components, carrying the converted expression and the atomic
flag. -/
def assembleCore : List (Nat × Value) → Value → Bool → Value × Bool
  | [], conv, atomic => (conv, atomic)
  | (i, e) :: rest, conv, atomic =>
    match e with
    | .cons car cdr =>
      let kont := if atomic then conv
                  else Value.consList [.name "&lambda", .name ("@@k" ++ toString i), conv]
      assembleCore rest (.cons car (.cons kont cdr)) false
    | _ => assembleCore rest conv atomic

/-- CPSConverter::assemble_cps_expression. -/
def assembleCps (st : CPSState) (original : Value) : Value :=
  match assembleCore st.dfs.enum.reverse st.continuation true with
  | (conv, true) => Value.consList [conv, original]
  | (conv, false) => conv

mutual

/-- CPSConverter::move_conditionals_to_top_level. -/
def moveConditionals : Nat → Value → EvalResult Value
  | 0, _ => .panicked "out of fuel"
  | n + 1, expr =>
    match findConditional expr with
    | none => .ok expr
    | some conditional =>
      match conditional.toList with
      | none => .panicked "unwrap on None"
      | some [_, condition, trueCase, falseCase] =>
        (moveConditionals n (expr.substitute conditional trueCase)).bind fun t =>
        (moveConditionals n (expr.substitute conditional falseCase)).bind fun f =>
        .ok (Value.consList [.name "&if", condition, t, f])
      | some _ => .error "Liszp: expected syntax (if <cond> <true-case> <false-case>)"

/-- CPSConverter::convert_expr_with_continuation.  A fresh converter is
created; note that the source hoists conditionals out of expr but then
tests the original expr for being a top-level conditional, and assembles
with the original expr as the atomic fallback. -/
def convertExprWithCont : Nat → Value → Value → EvalResult Value
  | 0, _, _ => .panicked "out of fuel"
  | n + 1, expr, continuation =>
    let st : CPSState := ⟨[], continuation⟩
    (moveConditionals n expr).bind fun restructured =>
    (convertConditional n st expr).bind fun copt =>
    match copt with
    | some c => .ok c
    | none =>
      (recursiveConvertExpr n st restructured).bind fun sv =>
      .ok (assembleCps sv.1 expr)

/-- CPSConverter::convert_conditional — both branches are converted with the
same surrounding continuation, then the condition is converted with the
lambda (&lambda @@k-if (&if @@k-if t f)) as its continuation. -/
def convertConditional : Nat → CPSState → Value → EvalResult (Option Value)
  | 0, _, _ => .panicked "out of fuel"
  | n + 1, st, expr =>
    match expr.toList with
    | none => .ok none
    | some [] => .ok none
    | some (c0 :: rest) =>
      if c0.nameStr ≠ "&if" then .ok none
      else match c0 :: rest with
        | [kwdIf, condition, trueCase, falseCase] =>
          (convertExprWithCont n trueCase st.continuation).bind fun t =>
          (convertExprWithCont n falseCase st.continuation).bind fun f =>
          let conditionalExpr := Value.consList [kwdIf, .name "@@k-if", t, f]
          let conditionalKont := Value.consList [.name "&lambda", .name "@@k-if", conditionalExpr]
          (convertExprWithCont n condition conditionalKont).bind fun r =>
          .ok (some r)
        | _ => .error "Liszp: expected syntax (if <conditon> <true case> <false case>)"

/-- CPSConverter::convert_lambda — prepends a fresh continuation parameter
@@k (consing it onto a list of formals, pairing with a single rest-name)
and converts the body with @@k as its terminal continuation. -/
def convertLambda : Nat → List Value → EvalResult Value
  | 0, _ => .panicked "out of fuel"
  | n + 1, components =>
    match components with
    | [kwdLambda, args, body] =>
      let lambdaKont := Value.name "@@k"
      let args' := match args with
        | .cons a b => Value.cons lambdaKont (.cons a b)
        | other => Value.consList [lambdaKont, other]
      (convertExprWithCont n body lambdaKont).bind fun body' =>
      .ok (Value.consList [kwdLambda, args', body'])
    | _ => .error "Liszp: expected syntax (lambda <args> <body>"

/-- CPSConverter::convert_quote — applies unquote conversion inside the
quoted value, pushes the rebuilt quote expression and returns its label. -/
def convertQuote : Nat → CPSState → List Value → EvalResult (CPSState × Value)
  | 0, _, _ => .panicked "out of fuel"
  | n + 1, st, components =>
    match components with
    | [c0, c1] =>
      (applyUnquote n st c1).bind fun sv =>
      let newExpr := Value.consList [c0, sv.2]
      let st' : CPSState := ⟨sv.1.dfs ++ [newExpr], sv.1.continuation⟩
      .ok (st', continuationLabel st')
    | _ => .error "unquote expressions take exactly 2 arguments"

/-- CPSConverter::apply_unquote — DFS for unquote expressions inside a
quoted value; an (&unquote e) is replaced by the label of the converted e. -/
def applyUnquote : Nat → CPSState → Value → EvalResult (CPSState × Value)
  | 0, _, _ => .panicked "out of fuel"
  | n + 1, st, expr =>
    match expr.toList with
    | none => .ok (st, expr)
    | some [] => .ok (st, expr)
    | some (c0 :: rest) =>
      if c0.nameStr = "&unquote" then
        match rest with
        | [arg] =>
          (recursiveConvertExpr n st arg).bind fun sv =>
          .ok (sv.1, continuationLabel sv.1)
        | _ => .error "Unquote expressions must contain exactly 1 argument"
      else
        (applyUnquoteList n st (c0 :: rest)).bind fun sv =>
        .ok (sv.1, Value.consList sv.2)

/-- The loop of apply_unquote over the components of a non-unquote list. -/
def applyUnquoteList : Nat → CPSState → List Value → EvalResult (CPSState × List Value)
  | 0, _, _ => .panicked "out of fuel"
  | _ + 1, st, [] => .ok (st, [])
  | n + 1, st, x :: xs =>
    (applyUnquote n st x).bind fun sv =>
    (applyUnquoteList n sv.1 xs).bind fun sv' =>
    .ok (sv'.1, sv.2 :: sv'.2)

/-- CPSConverter::recursive_convert_expr — depth-first collection of the
sub-computations of an expression; returns the label that stands for the
expression in its parent. -/
def recursiveConvertExpr : Nat → CPSState → Value → EvalResult (CPSState × Value)
  | 0, _, _ => .panicked "out of fuel"
  | n + 1, st, expr =>
    match expr.toList with
    | none => .ok (st, expr)
    | some [] => .ok (st, Value.nil)
    | some (c0 :: rest) =>
      if c0.nameStr = "&defmacro" then .ok (st, expr)
      else if c0.nameStr = "&lambda" then
        (convertLambda n (c0 :: rest)).bind fun v => .ok (st, v)
      else if c0.nameStr = "&quote" then
        convertQuote n st (c0 :: rest)
      else
        (recursiveConvertList n st rest).bind fun sv =>
        let st' : CPSState := ⟨sv.1.dfs ++ [Value.consList (c0 :: sv.2)], sv.1.continuation⟩
        .ok (st', continuationLabel st')

/-- The depth-first loop of recursive_convert_expr over argument
components. -/
def recursiveConvertList : Nat → CPSState → List Value → EvalResult (CPSState × List Value)
  | 0, _, _ => .panicked "out of fuel"
  | _ + 1, st, [] => .ok (st, [])
  | n + 1, st, x :: xs =>
    (recursiveConvertExpr n st x).bind fun sv =>
    (recursiveConvertList n sv.1 xs).bind fun sv' =>
    .ok (sv'.1, sv.2 :: sv'.2)

end

/-- cps::convert_expr — conversion with the initial continuation, the
sentinel Name no-continuation (cps.rs line 296). -/
def convertExpr (fuel : Nat) (expr : Value) : EvalResult Value :=
  convertExprWithCont fuel expr (.name "no-continuation")

/-- Number of occurrences of the Name no-continuation in a tree. -/
def ncCount : Value → Nat
  | .name n => if n = "no-continuation" then 1 else 0
  | .cons a b => ncCount a + ncCount b
  | .quote v => ncCount v
  | _ => 0

/-- No cons in the tree has the Name &if as its head (descending into
quotes and lambda bodies as well). -/
def ifFree : Value → Bool
  | .cons a b => !(a.nameStr == "&if") && ifFree a && ifFree b
  | .quote v => ifFree v
  | _ => true

/-! ## Evaluator (src/eval/evaluator.rs) -/

/-- The global environment (HashMap<String, Rc<Value>>), as an association
list: insert conses in front, lookup takes the most recent entry. -/
abbrev Globals := List (String × Value)

/-- The Evaluator struct.  The evaluated-values vector and the macro table
are omitted: no evaluator step modelled here reads or writes them. -/
structure Evaluator where
  globals : Globals
deriving DecidableEq, Repr

/-- Evaluator::resolve — a Name is looked up in the global environment (an
unbound name is an error quoting the identifier without its & prefix); any
other value resolves to itself. -/
def resolve (g : Globals) (v : Value) : EvalResult Value :=
  match v with
  | .name n =>
    match List.lookup n g with
    | some v' => .ok v'
    | none => .error ("unbound name \x27" ++ n.drop 1 ++ "\x27")
  | _ => .ok v

/-- The re-quoting rule of car/cdr: a selected element that is a Cons or a
Name is wrapped in a Quote again, anything else is passed through. -/
def requote : Value → Value
  | .cons a b => .quote (.cons a b)
  | .name n => .quote (.name n)
  | v => v

/-- Evaluator::car. -/
def carBuiltin (g : Globals) (args : List Value) : EvalResult Value :=
  match args with
  | [continuation, xs] =>
    (resolve g xs).bind fun resolved =>
    match resolved with
    | .quote inner =>
      match inner with
      | .cons a _ => .ok (Value.consList [continuation, requote a])
      | _ => .error "Liszp: function \x27cons\x27 expected to receive cons pair"
    | _ => .panicked "unreachable"
  | _ => .error "Liszp: function \x27car\x27 takes 1 argument"

/-- Evaluator::cdr. -/
def cdrBuiltin (g : Globals) (args : List Value) : EvalResult Value :=
  match args with
  | [continuation, xs] =>
    (resolve g xs).bind fun resolved =>
    match resolved with
    | .quote inner =>
      match inner with
      | .cons _ b => .ok (Value.consList [continuation, requote b])
      | _ => .error "Liszp: function \x27cons\x27 expected to receive cons pair"
    | _ => .panicked "unreachable"
  | _ => .error "Liszp: function \x27cdr\x27 takes 1 argument"

/-- Evaluator::cons — strips one Quote from each resolved operand and
yields a quoted pair. -/
def consBuiltin (g : Globals) (args : List Value) : EvalResult Value :=
  match args with
  | [continuation, carArg, cdrArg] =>
    (resolve g carArg).bind fun car =>
    (resolve g cdrArg).bind fun cdr =>
    let strip : Value → Value := fun v => match v with | .quote inner => inner | other => other
    .ok (Value.consList [continuation, .quote (.cons (strip car) (strip cdr))])
  | _ => .error "Liszp: function \x27cons\x27 expected 2 arguments"

/-- Evaluator::define_value — the only evaluator step that writes to the
global environment.  The value is installed unresolved. -/
def defineValue (g : Globals) (args : List Value) : EvalResult (Globals × Value) :=
  match args with
  | [continuation, nameArg, value] =>
    match nameArg with
    | .name n => .ok ((n, value) :: g, Value.consList [continuation, .nil])
    | _ => .error "Liszp: expected name in def expression"
  | _ => .error "Liszp: expected syntax (def <name> <value>)"

/-- Evaluator::eval_quoted — a Quote is CPS-converted with the supplied
continuation; anything else passes the unresolved argument along. -/
def evalQuoted (fuel : Nat) (g : Globals) (args : List Value) : EvalResult Value :=
  match args with
  | [continuation, quotedValue] =>
    (resolve g quotedValue).bind fun r =>
    match r with
    | .quote v =>
      (convertExprWithCont fuel v continuation).bind fun value =>
      .ok (Value.consList [continuation, value])
    | _ => .ok (Value.consList [continuation, quotedValue])
  | _ => .error "Liszp: function \x27quote\x27 takes exactly one argument"

/-- Evaluator::if_expr. -/
def ifExpr (g : Globals) (args : List Value) : EvalResult Value :=
  match args with
  | [condArg, trueArg, falseArg] =>
    (resolve g condArg).bind fun cond =>
    (resolve g trueArg).bind fun trueCase =>
    (resolve g falseArg).bind fun falseCase =>
    match cond with
    | .bool b => .ok (if b then trueCase else falseCase)
    | _ => .error "if expression expected a boolean condition"
  | _ => .error "Liszp: if expression has syntax (if <condition> <true case> <false case>)"

/-- Evaluator::no_continuation — the final stage of a trampolined
evaluation. -/
def noContinuation (g : Globals) (args : List Value) : EvalResult Value :=
  match args with
  | [v] => resolve g v
  | _ => .panicked "unreachable"

mutual

/-- The Display impl (value.rs); a cons displays as "(" followed by
print_list of itself: one " car" per chain element then a dotted tail. -/
def display : Value → String
  | .name s => s
  | .integer i => toString i
  | .float q => toString q
  | .string s => s
  | .bool b => toString b
  | .cons a b => "(" ++ (" " ++ display a ++ displayList b) ++ ")"
  | .quote v => "\x27" ++ display v
  | .nil => "nil"

/-- Value::print_list continued past the first element (value.rs). -/
def displayList : Value → String
  | .cons car cdr => " " ++ display car ++ displayList cdr
  | .nil => ""
  | other => " . " ++ display other

end

/-- Evaluator::panic — aborts the process with the displayed message. -/
def panicBuiltin (args : List Value) : EvalResult Value :=
  match args with
  | [_, msg] => .panicked (display msg)
  | _ => .error "Liszp: expected syntax (panic <message>)"

/-- Evaluator::print_value (the stdout side effect is not modelled). -/
def printValue (g : Globals) (args : List Value) (newline : Bool) : EvalResult Value :=
  match args with
  | [continuation, v] =>
    (resolve g v).bind fun value =>
    .ok (Value.consList [continuation, value])
  | _ => .error ("Function print" ++ (if newline then "ln" else "") ++ " takes 1 argument only")

/-- Evaluator::quote_value — an already-quoted value is passed through
unresolved, anything else is resolved and wrapped in one Quote. -/
def quoteValue (g : Globals) (args : List Value) : EvalResult Value :=
  match args with
  | [continuation, value] =>
    match value with
    | .quote inner => .ok (Value.consList [continuation, .quote inner])
    | other =>
      (resolve g other).bind fun r =>
      .ok (Value.consList [continuation, .quote r])
  | _ => .error "Liszp: function \x27quote\x27 takes exactly one value"

/-- Evaluator::values_are_equal — resolves both operands and compares them
with the PartialEq impl. -/
def valuesAreEqual (g : Globals) (args : List Value) : EvalResult Value :=
  match args with
  | [continuation, x, y] =>
    (resolve g x).bind fun xv =>
    (resolve g y).bind fun yv =>
    .ok (Value.consList [continuation, .bool (valueEq xv yv)])
  | _ => .error "Liszp: Function \x27equals?\x27 takes exactly 2 parameters"

/-- The one-Quote unwrap shared by the type predicates. -/
def unquoteOnce : Value → Value
  | .quote v => v
  | v => v

/-- Evaluator::value_is_bool. -/
def valueIsBool (g : Globals) (args : List Value) : EvalResult Value :=
  match args with
  | [continuation, value] =>
    (resolve g value).bind fun r =>
    .ok (Value.consList [continuation,
      .bool (match unquoteOnce r with | .bool _ => true | _ => false)])
  | _ => .error "Liszp: function \x27bool?\x27 takes exactly one argument"

/-- Evaluator::value_is_cons. -/
def valueIsCons (g : Globals) (args : List Value) : EvalResult Value :=
  match args with
  | [continuation, value] =>
    (resolve g value).bind fun r =>
    .ok (Value.consList [continuation,
      .bool (match unquoteOnce r with | .cons _ _ => true | _ => false)])
  | _ => .error "Liszp: function \x27cons?\x27 takes exactly one argument"

/-- Evaluator::value_is_float. -/
def valueIsFloat (g : Globals) (args : List Value) : EvalResult Value :=
  match args with
  | [continuation, value] =>
    (resolve g value).bind fun r =>
    .ok (Value.consList [continuation,
      .bool (match unquoteOnce r with | .float _ => true | _ => false)])
  | _ => .error "Liszp: function \x27float?\x27 takes exactly one argument"

/-- Evaluator::value_is_int. -/
def valueIsInt (g : Globals) (args : List Value) : EvalResult Value :=
  match args with
  | [continuation, value] =>
    (resolve g value).bind fun r =>
    .ok (Value.consList [continuation,
      .bool (match unquoteOnce r with | .integer _ => true | _ => false)])
  | _ => .error "Liszp: function \x27int?\x27 takes exactly one argument"

/-- Evaluator::value_is_nil. -/
def valueIsNil (g : Globals) (args : List Value) : EvalResult Value :=
  match args with
  | [continuation, value] =>
    (resolve g value).bind fun r =>
    .ok (Value.consList [continuation,
      .bool (match unquoteOnce r with | .nil => true | _ => false)])
  | _ => .error "Liszp: function \x27nil?\x27 takes exactly one argument"

/-- Evaluator::value_is_name — unlike the other predicates, the argument is
inspected directly, without resolving it in the global environment. -/
def valueIsName (args : List Value) : EvalResult Value :=
  match args with
  | [continuation, value] =>
    .ok (Value.consList [continuation,
      .bool (match unquoteOnce value with | .name _ => true | _ => false)])
  | _ => .error "Liszp: function \x27name?\x27 takes exactly one argument"

/-- Evaluator::value_is_quote — reports whether the resolved value itself
is a Quote; it does not unwrap a Quote layer first. -/
def valueIsQuote (g : Globals) (args : List Value) : EvalResult Value :=
  match args with
  | [continuation, value] =>
    (resolve g value).bind fun r =>
    .ok (Value.consList [continuation,
      .bool (match r with | .quote _ => true | _ => false)])
  | _ => .error "Liszp: function \x27quote?\x27 takes exactly one argument"

/-- Evaluator::value_is_str. -/
def valueIsStr (g : Globals) (args : List Value) : EvalResult Value :=
  match args with
  | [continuation, value] =>
    (resolve g value).bind fun r =>
    .ok (Value.consList [continuation,
      .bool (match unquoteOnce r with | .string _ => true | _ => false)])
  | _ => .error "Liszp: function \x27str?\x27 takes exactly one argument"

/-- Truncation of a rational toward zero (the rounding rug uses for the
float remainder). -/
def ratTrunc (q : Rat) : Int :=
  Int.tdiv q.num (q.den : Int)

/-- Remainder with the sign of the dividend, as rug computes Float % Float
(on the exact-rational idealization of floats). -/
def ratTruncMod (x y : Rat) : Rat :=
  x - y * ((ratTrunc (x / y) : Int) : Rat)

/-- The operand-collection loop of Evaluator::arithmetic_expression:
resolve each argument after the continuation, require it numeric. -/
def collectNumbers (g : Globals) (op : String) : List Value → EvalResult (List Value)
  | [] => .ok []
  | a :: rest =>
    (resolve g a).bind fun r =>
    match r with
    | .float q => (collectNumbers g op rest).bind fun vs => .ok (.float q :: vs)
    | .integer i => (collectNumbers g op rest).bind fun vs => .ok (.integer i :: vs)
    | _ => .error ("Liszp: \x27" ++ op.drop 1 ++ "\x27 expression takes numeric arguments")

/-- The reduce_over_operation loop of Evaluator::integer_arithmetic.  rug
aborts the process on integer division by zero; any non-integer entry or
unknown operator is the source's unreachable branch. -/
def integerFold (op : String) : Int → List Value → EvalResult Int
  | acc, [] => .ok acc
  | acc, .integer i :: rest =>
    if op = "&+" then integerFold op (acc + i) rest
    else if op = "&-" then integerFold op (acc - i) rest
    else if op = "&*" then integerFold op (acc * i) rest
    else if op = "&/" then
      if i = 0 then .panicked "division by zero"
      else integerFold op (Int.tdiv acc i) rest
    else .panicked "unreachable"
  | _, _ :: _ => .panicked "unreachable"

/-- Evaluator::integer_arithmetic — the accumulator starts at the first
operand; a single operand under &- is negated. -/
def integerArithmetic (op : String) (args : List Value) : EvalResult Value :=
  match args with
  | [] => .panicked "index out of bounds"
  | first :: rest =>
    match first with
    | .integer i =>
      (integerFold op i rest).bind fun result =>
      if op = "&-" && args.length = 1 then .ok (.integer (-result))
      else .ok (.integer result)
    | _ => .panicked "unreachable"

/-- The reduce_over_operation loop of Evaluator::float_arithmetic, with
Integer operands widened on the fly. -/
def floatFold (op : String) : Rat → List Value → EvalResult Rat
  | acc, [] => .ok acc
  | acc, v :: rest =>
    (match v with
     | .float f => EvalResult.ok f
     | .integer i => EvalResult.ok (i : Rat)
     | _ => .panicked "unreachable").bind fun x =>
    if op = "&+" then floatFold op (acc + x) rest
    else if op = "&-" then floatFold op (acc - x) rest
    else if op = "&*" then floatFold op (acc * x) rest
    else if op = "&/" then floatFold op (acc / x) rest
    else .panicked "unreachable"

/-- Evaluator::float_arithmetic — the accumulator starts at the first
operand widened to a float. -/
def floatArithmetic (op : String) (args : List Value) : EvalResult Value :=
  match args with
  | [] => .panicked "index out of bounds"
  | first :: rest =>
    (match first with
     | .float f => EvalResult.ok f
     | .integer i => EvalResult.ok (i : Rat)
     | _ => .panicked "unreachable").bind fun acc =>
    (floatFold op acc rest).bind fun result =>
    if op = "&-" && args.length = 1 then .ok (.float (-result))
    else .ok (.float result)

/-- True for a Float value. -/
def Value.isFloat : Value → Bool
  | .float _ => true
  | _ => false

/-- Evaluator::arithmetic_expression — args holds the continuation followed
by at least one operand; if any resolved operand is a Float the whole
computation is float arithmetic, otherwise integer arithmetic. -/
def arithmeticExpression (g : Globals) (op : String) (args : List Value) : EvalResult Value :=
  if args.length < 2 then
    .error ("Liszp: \x27" ++ op ++ "\x27 expression takes at least 1 argument")
  else
    match args with
    | continuation :: operands =>
      (collectNumbers g op operands).bind fun numbers =>
      (if numbers.any Value.isFloat
       then floatArithmetic op numbers
       else integerArithmetic op numbers).bind fun result =>
      .ok (Value.consList [continuation, result])
    | [] => .panicked "unreachable"

/-- Evaluator::modulo — the source pattern-matches (dividend, divisor):
(Float, Float) and (Integer, Integer) compute a remainder, (Float, Integer)
is a returned error, and every other combination falls into an
unreachable!() arm aborting the process.  rug likewise aborts on an
integer modulus by zero. -/
def moduloBuiltin (g : Globals) (args : List Value) : EvalResult Value :=
  match args with
  | [continuation, dividendArg, divisorArg] =>
    (resolve g dividendArg).bind fun dividend =>
    (resolve g divisorArg).bind fun divisor =>
    (match dividend, divisor with
     | .float x, .float y => EvalResult.ok (Value.float (ratTruncMod x y))
     | .float _, .integer _ => .error "Liszp: Cannot take the integer modulo of a float"
     | .integer x, .integer y =>
       if y = 0 then .panicked "division by zero" else EvalResult.ok (Value.integer (Int.tmod x y))
     | _, _ => .panicked "unreachable").bind fun result =>
    .ok (Value.consList [continuation, result])
  | _ => .error "Liszp: modulo expressions take exactly 2 arguments"

/-- Evaluator::binary_logical_operation. -/
def binaryLogicalOperation (g : Globals) (op : String) (args : List Value) : EvalResult Value :=
  match args with
  | [continuation, xArg, yArg] =>
    (resolve g xArg).bind fun xv =>
    (match xv with
     | .bool b => EvalResult.ok b
     | _ => .error ("Liszp: " ++ op.drop 1 ++ " expressions take boolean arguments")).bind fun x =>
    (resolve g yArg).bind fun yv =>
    (match yv with
     | .bool b => EvalResult.ok b
     | _ => .error ("Liszp: " ++ op.drop 1 ++ " expressions take boolean arguments")).bind fun y =>
    (if op = "&and" then EvalResult.ok (x && y)
     else if op = "&or" then EvalResult.ok (x || y)
     else if op = "&xor" then EvalResult.ok (Bool.xor x y)
     else .panicked "unreachable").bind fun result =>
    .ok (Value.consList [continuation, .bool result])
  | _ => .error ("Liszp: " ++ op.drop 1 ++ " expressions take exactly 2 arguments")

/-- Evaluator::logical_negation. -/
def logicalNegation (g : Globals) (args : List Value) : EvalResult Value :=
  match args with
  | [continuation, xArg] =>
    (resolve g xArg).bind fun xv =>
    (match xv with
     | .bool b => EvalResult.ok b
     | _ => .error "Liszp: not expressions take a boolean argument").bind fun x =>
    .ok (Value.consList [continuation, .bool (!x)])
  | _ => .error "Liszp: not expressions take exactly 1 argument"

/-- Evaluator::integer_comparison. -/
def integerComparison (op : String) (x y : Int) : EvalResult Value :=
  if op = "&==" then .ok (.bool (x = y))
  else if op = "&!=" then .ok (.bool (x ≠ y))
  else if op = "&<" then .ok (.bool (x < y))
  else if op = "&>" then .ok (.bool (x > y))
  else if op = "&<=" then .ok (.bool (x ≤ y))
  else if op = "&>=" then .ok (.bool (x ≥ y))
  else .panicked "unreachable"

/-- Evaluator::float_comparison (on the rational idealization). -/
def floatComparison (op : String) (x y : Rat) : EvalResult Value :=
  if op = "&==" then .ok (.bool (x = y))
  else if op = "&!=" then .ok (.bool (x ≠ y))
  else if op = "&<" then .ok (.bool (x < y))
  else if op = "&>" then .ok (.bool (x > y))
  else if op = "&<=" then .ok (.bool (x ≤ y))
  else if op = "&>=" then .ok (.bool (x ≥ y))
  else .panicked "unreachable"

/-- Evaluator::comparison — Integer is widened to Float when compared with
a Float. -/
def comparison (g : Globals) (op : String) (args : List Value) : EvalResult Value :=
  match args with
  | [continuation, xArg, yArg] =>
    (resolve g xArg).bind fun x =>
    (resolve g yArg).bind fun y =>
    (match x, y with
     | .integer a, .integer b => integerComparison op a b
     | .float a, .integer b => floatComparison op a (b : Rat)
     | .integer a, .float b => floatComparison op (a : Rat) b
     | .float a, .float b => floatComparison op a b
     | _, _ => .error ("Liszp: " ++ op.drop 1 ++ " expressions take two numeric values")).bind
    fun result => .ok (Value.consList [continuation, result])
  | _ => .error ("Liszp: " ++ op.drop 1 ++ " expressions take exactly 2 values")

/-! ## Lambda calls (src/eval/evaluator.rs) -/

/-- The arg-name bindings built during a lambda call
(HashMap<String, Rc<Value>>; insert conses in front). -/
abbrev ValueMap := List (String × Value)

/-- The name-collection loop of Evaluator::get_arg_names. -/
def namesOfList : List Value → EvalResult (List String)
  | [] => .ok []
  | .name n :: rest => (namesOfList rest).bind fun ns => .ok (n :: ns)
  | _ :: _ => .error "Liszp: Expected name in function argument"

/-- Evaluator::get_arg_names — a cons chain of names, a single rest-name,
or Nil. -/
def getArgNames (argComponent : Value) : EvalResult (List String) :=
  match argComponent with
  | .cons a b =>
    match Value.toList (.cons a b) with
    | some vs => namesOfList vs
    | none => .panicked "unwrap on None"
  | .name n => .ok [n]
  | .nil => .ok []
  | _ => .error "Liszp: Function expected a list of arguments or a single argument in lambda expression"

/-- Evaluator::build_argument_hashmap — arity is checked, then the names
are bound to the argument values in order (a later duplicate name
overwrites an earlier one, as HashMap::insert does). -/
def buildArgumentHashmap (argNames : List String) (argValues : List Value) : EvalResult ValueMap :=
  if argNames.length ≠ argValues.length then
    .error ("Function takes " ++ toString argNames.length ++ " arguments but received "
            ++ toString argValues.length)
  else
    .ok ((argNames.zip argValues).foldl (fun m p => (p.1, p.2) :: m) [])

/-- The removal loop of Evaluator::remove_shadowed_arguments: names bound in
the map are taken out and remembered. -/
def removeShadowedLoop : List String → List (String × Value) → ValueMap
    → List (String × Value) × ValueMap
  | [], shadowed, m => (shadowed, m)
  | nm :: rest, shadowed, m =>
    match List.lookup nm m with
    | some v => removeShadowedLoop rest ((nm, v) :: shadowed) (m.filter (fun p => p.1 ≠ nm))
    | none => removeShadowedLoop rest shadowed m

/-- Evaluator::remove_shadowed_arguments. -/
def removeShadowedArguments (argComponent : Value) (m : ValueMap) :
    EvalResult (List (String × Value) × ValueMap) :=
  (getArgNames argComponent).bind fun names =>
  .ok (removeShadowedLoop names [] m)

/-- Evaluator::recursively_bind_args — substitutes argument names by their
values inside the function body, honouring shadowing by nested lambda
parameter lists (the removed bindings are re-inserted afterwards). -/
def recursivelyBindArgs : Nat → ValueMap → Value → EvalResult (Value × ValueMap)
  | 0, _, _ => .panicked "out of fuel"
  | n + 1, m, expr =>
    match expr with
    | .name nm =>
      match List.lookup nm m with
      | some v => .ok (v, m)
      | none => .ok (.name nm, m)
    | .cons car cdr =>
      if car.nameStr = "&lambda" then
        match Value.toList (.cons car cdr) with
        | some (c0 :: c1 :: c2 :: _) =>
          (removeShadowedArguments c1 m).bind fun sm =>
          (recursivelyBindArgs n sm.2 c2).bind fun bv =>
          .ok (Value.consList [c0, c1, bv.1],
               sm.1.foldl (fun mm p => (p.1, p.2) :: mm) bv.2)
        | some _ => .panicked "index out of bounds"
        | none => .error "malformed lambda expression"
      else
        (recursivelyBindArgs n m car).bind fun cv =>
        (recursivelyBindArgs n cv.2 cdr).bind fun dv =>
        .ok (.cons cv.1 dv.1, dv.2)
    | other => .ok (other, m)

/-- Evaluator::evaluate_lambda_funcall — takes &self only: it reads the
global environment to resolve the callee but never writes to it; the
parameters are bound by substitution into the body, not by installing
global bindings. -/
def evaluateLambdaFuncall (fuel : Nat) (g : Globals) (function : Value)
    (argValues : List Value) : EvalResult Value :=
  (resolve g function).bind fun f =>
  match Value.toList f with
  | none => .error "Liszp: function should have syntax (lambda <args> <body>)"
  | some comps =>
    if comps.length ≠ 3 then .error "Liszp: function should have syntax (lambda <args> <body>)"
    else match comps with
    | [c0, c1, c2] =>
      if c0.nameStr ≠ "&lambda" then .error "Liszp: attempt to call a non-function value"
      else
        (getArgNames c1).bind fun argNames =>
        (buildArgumentHashmap argNames argValues).bind fun argMap =>
        (recursivelyBindArgs fuel argMap c2).bind fun bv =>
        .ok bv.1
    | _ => .panicked "unreachable"

/-! ## The trampoline step (Evaluator::eval, the while-let loop body) -/

/-- The dispatch of one trampoline iteration for every head except &def
(the only branch that takes &mut self and may write the globals).  The
dispatch strings are exactly those of the source match, including "&float"
(not "&float?") for value_is_float; an unmatched head falls through to
evaluate_lambda_funcall. -/
def evalStepPure (fuel : Nat) (g : Globals) (function : Value) (args : List Value) :
    EvalResult Value :=
  let fname := function.nameStr
  if fname = "&bool?" then valueIsBool g args
  else if fname = "&car" then carBuiltin g args
  else if fname = "&cdr" then cdrBuiltin g args
  else if fname = "&cons" then consBuiltin g args
  else if fname = "&cons?" then valueIsCons g args
  else if fname = "&equals?" then valuesAreEqual g args
  else if fname = "&eval" then evalQuoted fuel g args
  else if fname = "&float" then valueIsFloat g args
  else if fname = "&if" then ifExpr g args
  else if fname = "&int?" then valueIsInt g args
  else if fname = "&name?" then valueIsName args
  else if fname = "&nil?" then valueIsNil g args
  else if fname = "no-continuation" then noContinuation g args
  else if fname = "&panic" then panicBuiltin args
  else if fname = "&print" then printValue g args false
  else if fname = "&println" then printValue g args true
  else if fname = "&quote" then quoteValue g args
  else if fname = "&quote?" then valueIsQuote g args
  else if fname = "&str?" then valueIsStr g args
  else if fname = "&+" || fname = "&-" || fname = "&*" || fname = "&/" then
    arithmeticExpression g fname args
  else if fname = "&%" then moduloBuiltin g args
  else if fname = "&and" || fname = "&or" || fname = "&xor" then
    binaryLogicalOperation g fname args
  else if fname = "&not" then logicalNegation g args
  else if fname = "&<" || fname = "&>" || fname = "&<=" || fname = "&>="
       || fname = "&==" || fname = "&!=" then comparison g fname args
  else evaluateLambdaFuncall fuel g function args

/-- One iteration of the Evaluator::eval while-let loop: split the cons
into head and argument list (to_list().expect(..) aborts on a non-list
argument position), then dispatch.  A non-cons value is left unchanged
(the loop exits). -/
def evalStep (fuel : Nat) (ev : Evaluator) (value : Value) : EvalResult (Evaluator × Value) :=
  match value with
  | .cons function args =>
    match Value.toList args with
    | none => .panicked "Liszp: expected a list of arguments"
    | some argList =>
      if function.nameStr = "&def" then
        (defineValue ev.globals argList).bind fun gv =>
        .ok (⟨gv.1⟩, gv.2)
      else
        (evalStepPure fuel ev.globals function argList).bind fun v =>
        .ok (ev, v)
  | other => .ok (ev, other)

/-- The full Evaluator::eval trampoline loop (without the preprocessing
stage): iterate evalStep while the current value is a cons. -/
def evalLoop : Nat → Evaluator → Value → EvalResult (Evaluator × Value)
  | 0, _, _ => .panicked "out of fuel"
  | n + 1, ev, value =>
    match value with
    | .cons a b => (evalStep n ev (.cons a b)).bind fun evv => evalLoop n evv.1 evv.2
    | other => .ok (ev, other)

/-! ## Macro table (src/preprocess/macros.rs) -/

/-- The Macro struct: name, formal arguments and body. -/
structure Macro where
  name : Value
  args : Value
  body : Value
deriving DecidableEq, Repr

/-- The macro table of MacroExpander (HashMap<String, Macro> as an
association list; insert conses in front so lookup sees the newest entry,
exactly HashMap overwrite semantics). -/
abbrev MacroTable := List (String × Macro)

/-- MacroExpander::add_macro — the source first runs
self.macros.insert(m.name.name(), m), which replaces any existing entry,
and only then reports an error if an entry was replaced.  The function
therefore returns the error alongside the already-updated table. -/
def addMacro (macros : MacroTable) (m : Macro) : EvalResult Unit × MacroTable :=
  let macroName := m.name.nameStr
  let old := List.lookup macroName macros
  let macros' := (macroName, m) :: macros
  match old with
  | some _ => (.error ("macro \x27" ++ macroName ++ "\x27 has already been defined"), macros')
  | none => (.ok (), macros')

/-! ## Auxiliary predicates and reference functions used by the theorems -/

/-- True for a Name value. -/
def Value.isName : Value → Bool
  | .name _ => true
  | _ => false

/-- True for a Bool value. -/
def Value.isBool : Value → Bool
  | .bool _ => true
  | _ => false

/-- True for a Cons value. -/
def Value.isCons : Value → Bool
  | .cons _ _ => true
  | _ => false

/-- True for an Integer value. -/
def Value.isInt : Value → Bool
  | .integer _ => true
  | _ => false

/-- True for Nil. -/
def Value.isNil : Value → Bool
  | .nil => true
  | _ => false

/-- True for a String value. -/
def Value.isStr : Value → Bool
  | .string _ => true
  | _ => false

/-- True for a Quote value. -/
def Value.isQuote : Value → Bool
  | .quote _ => true
  | _ => false

/-- True for an Integer or Float value. -/
def Value.isNumeric : Value → Bool
  | .integer _ => true
  | .float _ => true
  | _ => false

/-- No String variant occurs anywhere in the tree. -/
def stringFree : Value → Bool
  | .string _ => false
  | .cons a b => stringFree a && stringFree b
  | .quote v => stringFree v
  | _ => true

/-- Reference integer semantics of one arithmetic operator, over
arbitrary-precision integers (division truncates toward zero). -/
def intOpRef (op : String) (a b : Int) : Int :=
  if op = "&+" then a + b
  else if op = "&-" then a - b
  else if op = "&*" then a * b
  else Int.tdiv a b

/-- Reference semantics of a variadic integer arithmetic expression: fold
the operator from the left starting at the first operand; a single operand
under &- is negated. -/
def arithRefInt (op : String) (x : Int) (xs : List Int) : Int :=
  if op = "&-" ∧ xs = [] then -x else List.foldl (intOpRef op) x xs

/-- Reference exact-rational semantics of one float arithmetic operator. -/
def ratOpRef (op : String) (a b : Rat) : Rat :=
  if op = "&+" then a + b
  else if op = "&-" then a - b
  else if op = "&*" then a * b
  else a / b

/-- Reference semantics of a variadic float arithmetic expression over the
operands widened to rationals. -/
def arithRefRat (op : String) (x : Rat) (xs : List Rat) : Rat :=
  if op = "&-" ∧ xs = [] then -x else List.foldl (ratOpRef op) x xs

/-- Widening of a numeric operand to the float (rational) domain. -/
def widen : Value → Rat
  | .integer i => (i : Rat)
  | .float q => q
  | _ => 0

/-! ## Concrete fixtures used by witnesses and counterexamples -/

/-- An evaluator with an empty global environment. -/
def emptyEvaluator : Evaluator := ⟨[]⟩

/-- The source expression (&if &x &y &z). -/
def ifFixture : Value :=
  Value.consList [.name "&if", .name "&x", .name "&y", .name "&z"]

/-- The CPS image of (&if &x &y &z): the condition is fed to the @@k-if
lambda whose body duplicates the surrounding continuation, the sentinel
no-continuation, into both branches. -/
def ifFixtureConverted : Value :=
  Value.consList [
    Value.consList [.name "&lambda", .name "@@k-if",
      Value.consList [.name "&if", .name "@@k-if",
        Value.consList [.name "no-continuation", .name "&y"],
        Value.consList [.name "no-continuation", .name "&z"]]],
    .name "&x"]

/-- A CPS-converted identity lambda (&lambda (@@k &x) (@@k &x)). -/
def idLambda : Value :=
  Value.consList [.name "&lambda",
    Value.consList [.name "@@k", .name "&x"],
    Value.consList [.name "@@k", .name "&x"]]

/-- An evaluator whose globals bind &n to 5 and &f to the identity
lambda. -/
def lambdaEvaluator : Evaluator := ⟨[("&n", .integer 5), ("&f", idLambda)]⟩

/-- A macro (m) with body 1. -/
def macroOne : Macro := ⟨.name "m", .nil, .integer 1⟩

/-- A second macro named m with body 2. -/
def macroTwo : Macro := ⟨.name "m", .nil, .integer 2⟩

/-! ## Shared lemmas -/

/-- Resolving a non-Name value returns it unchanged. -/
theorem resolve_nonname (g : Globals) (v : Value) (h : v.isName = false) :
    resolve g v = .ok v := by
  cases v <;> simp_all [resolve, Value.isName]

/-- to_list of a cons chain collects exactly the pushed-in cars when the
chain ends in a non-cons tail. -/
theorem toListCore_foldr (xs : List Value) (t : Value) (h : t.isCons = false) :
    Value.toListCore (List.foldr Value.cons t xs) = xs := by
  induction xs with
  | nil => cases t <;> simp_all [Value.toListCore, Value.isCons]
  | cons x xs ih => simp [Value.toListCore, ih]

/-! ## C7 -/

/-- C7 (counterexample): evaluating (&/ no-continuation 1 0) does not
return an EvaluationError — the trampoline aborts with the numeric
library's division-by-zero panic, so the claim that the evaluator returns
an error value is false. -/
theorem division_by_zero_counterexample :
    evalLoop 10 emptyEvaluator
        (Value.consList [.name "&/", .name "no-continuation", .integer 1, .integer 0])
      = .panicked "division by zero"
  ∧ (evalLoop 10 emptyEvaluator
        (Value.consList [.name "&/", .name "no-continuation", .integer 1, .integer 0])).isError
      = false :=
  ⟨rfl, rfl⟩

/-- C7 (amended): integer division whose last operand is the literal 0
makes the evaluator step abort with a host panic whose message references
division ("division by zero"), inherited from the numeric library; no
EvaluationError is returned. -/
theorem division_by_zero_panics (fuel : Nat) (ev : Evaluator) (k : Value) (x : Int) :
    evalStep fuel ev (Value.consList [.name "&/", k, .integer x, .integer 0])
      = .panicked "division by zero" := by
  simp [evalStep, evalStepPure, Value.consList, Value.toList, Value.toListCore, Value.nameStr,
        arithmeticExpression, collectNumbers, resolve, integerArithmetic, integerFold,
        Value.isFloat, EvalResult.bind]

/-! ## C9 -/

/-- C9 (counterexample): a call whose argument position is the improper
list (@@k true . 5) is evaluated without any error — the type predicate
runs as if the trailing 5 were absent, so the claim that improper lists
produce an explicit error is false. -/
theorem improper_args_counterexample :
    evalStep 10 emptyEvaluator
        (.cons (.name "&quote?") (.cons (.name "@@k") (.cons (.bool true) (.integer 5))))
      = .ok (emptyEvaluator, Value.consList [.name "@@k", .bool false])
  ∧ (evalStep 10 emptyEvaluator
        (.cons (.name "&quote?") (.cons (.name "@@k") (.cons (.bool true) (.integer 5))))).isError
      = false :=
  ⟨rfl, rfl⟩

/-- C9 (amended): Value::to_list yields none only when the value is neither
Nil nor a Cons; on an improper cons chain it yields the cars with the
non-Nil tail silently dropped, and the evaluator therefore treats a call
with an improper argument list exactly like the call with the tail
removed, producing no error. -/
theorem toList_improper_spec :
    (∀ (x t : Value) (xs : List Value), t.isCons = false →
       Value.toList (List.foldr Value.cons t (x :: xs)) = some (x :: xs))
  ∧ (∀ t : Value, t.isCons = false → t ≠ .nil → Value.toList t = none)
  ∧ (∀ (fuel : Nat) (ev : Evaluator) (fn x t : Value) (xs : List Value), t.isCons = false →
       evalStep fuel ev (.cons fn (List.foldr Value.cons t (x :: xs)))
         = evalStep fuel ev (.cons fn (Value.consList (x :: xs)))) := by
  refine ⟨?_, ?_, ?_⟩
  · intro x t xs h
    simp [Value.toList, List.foldr, toListCore_foldr xs t h]
  · intro t h hn
    cases t <;> simp_all [Value.toList, Value.isCons]
  · intro fuel ev fn x t xs h
    have h1 : Value.toList (List.foldr Value.cons t (x :: xs)) = some (x :: xs) := by
      simp [Value.toList, List.foldr, toListCore_foldr xs t h]
    have h2 : Value.toList (Value.consList (x :: xs)) = some (x :: xs) := by
      simp [Value.consList, Value.toList, List.foldr,
            toListCore_foldr xs Value.nil (by simp [Value.isCons])]
    simp only [evalStep, h1, h2]

/-- C9 witness for the amended claim: instantiates all three parts on the
improper chain (nil . 5). -/
theorem toList_improper_spec_witness :
    Value.toList (List.foldr Value.cons (.integer 5) [Value.nil]) = some [Value.nil]
  ∧ Value.toList (.integer 5) = none
  ∧ evalStep 3 emptyEvaluator (.cons (.name "&nil?") (List.foldr Value.cons (.integer 5) [.name "@@k", .bool true]))
      = evalStep 3 emptyEvaluator (.cons (.name "&nil?") (Value.consList [.name "@@k", .bool true])) :=
  ⟨toList_improper_spec.1 Value.nil (.integer 5) [] (by decide),
   toList_improper_spec.2.1 (.integer 5) (by decide) (by decide),
   toList_improper_spec.2.2 3 emptyEvaluator (.name "&nil?") (.name "@@k") (.integer 5) [.bool true] (by decide)⟩

/-! ## C10 -/

/-- C10 (counterexample): installing macroTwo over the already-installed
macroOne (same name m) returns an error, yet the table now maps m to
macroTwo, not to the originally installed macroOne — so the claim that the
failed installation leaves the macro table unchanged is false. -/
theorem addMacro_overwrites_on_error :
    (addMacro (addMacro [] macroOne).2 macroTwo).1.isError = true
  ∧ List.lookup "m" (addMacro (addMacro [] macroOne).2 macroTwo).2 = some macroTwo
  ∧ macroTwo ≠ macroOne :=
  ⟨rfl, rfl, by decide⟩

/-- C10 (amended): MacroExpander::add_macro on a name that is already
bound as a macro fails with the redefinition error, but the table has
nevertheless been updated: the name is now mapped to the newly supplied
macro. -/
theorem addMacro_redefinition (t : MacroTable) (m m₀ : Macro)
    (h : List.lookup m.name.nameStr t = some m₀) :
    (addMacro t m).1 = .error ("macro \x27" ++ m.name.nameStr ++ "\x27 has already been defined")
  ∧ List.lookup m.name.nameStr (addMacro t m).2 = some m := by
  simp [addMacro, h, List.lookup]

/-- C10 witness: the amended claim applied to the concrete redefinition of
m. -/
theorem addMacro_redefinition_witness :
    (addMacro (addMacro [] macroOne).2 macroTwo).1
        = .error ("macro \x27" ++ macroTwo.name.nameStr ++ "\x27 has already been defined")
  ∧ List.lookup macroTwo.name.nameStr (addMacro (addMacro [] macroOne).2 macroTwo).2
        = some macroTwo :=
  addMacro_redefinition (addMacro [] macroOne).2 macroTwo macroOne rfl

/-! ## C8 -/

/-- C8 (counterexample): (&% k 1 1.0) — Integer dividend, Float divisor —
does not return an error result: the step lands in the source's
unreachable!() arm and aborts the process, so the claim is false for this
operand combination. -/
theorem modulo_int_float_counterexample :
    evalStep 5 emptyEvaluator (Value.consList [.name "&%", .name "@@k", .integer 1, .float 1])
      = .panicked "unreachable"
  ∧ (evalStep 5 emptyEvaluator
        (Value.consList [.name "&%", .name "@@k", .integer 1, .float 1])).isError = false :=
  ⟨rfl, rfl⟩

/-- C8 (amended): &% succeeds when both operands are Integer (divisor
non-zero) or both Float; a Float dividend with an Integer divisor returns
an error; but an Integer dividend with a Float divisor reaches the
unreachable branch and aborts the process instead of returning an error. -/
theorem modulo_operand_combinations :
    (∀ (fuel : Nat) (ev : Evaluator) (k : Value) (a b : Int), b ≠ 0 →
       evalStep fuel ev (Value.consList [.name "&%", k, .integer a, .integer b])
         = .ok (ev, Value.consList [k, .integer (Int.tmod a b)]))
  ∧ (∀ (fuel : Nat) (ev : Evaluator) (k : Value) (x y : Rat),
       evalStep fuel ev (Value.consList [.name "&%", k, .float x, .float y])
         = .ok (ev, Value.consList [k, .float (ratTruncMod x y)]))
  ∧ (∀ (fuel : Nat) (ev : Evaluator) (k : Value) (x : Rat) (b : Int),
       evalStep fuel ev (Value.consList [.name "&%", k, .float x, .integer b])
         = .error "Liszp: Cannot take the integer modulo of a float")
  ∧ (∀ (fuel : Nat) (ev : Evaluator) (k : Value) (a : Int) (y : Rat),
       evalStep fuel ev (Value.consList [.name "&%", k, .integer a, .float y])
         = .panicked "unreachable") := by
  refine ⟨?_, ?_, ?_, ?_⟩ <;>
    intros <;>
    simp_all [evalStep, evalStepPure, moduloBuiltin, resolve, Value.consList, Value.toList,
              Value.toListCore, Value.nameStr, EvalResult.bind]

/-- C8 witness: the amended claim applied at (7 % 2), (1.5 % 1), a float
dividend with integer divisor, and an integer dividend with float
divisor. -/
theorem modulo_operand_combinations_witness :
    evalStep 3 emptyEvaluator (Value.consList [.name "&%", .name "@@k", .integer 7, .integer 2])
      = .ok (emptyEvaluator, Value.consList [.name "@@k", .integer (Int.tmod 7 2)])
  ∧ evalStep 3 emptyEvaluator (Value.consList [.name "&%", .name "@@k", .float (3/2), .float 1])
      = .ok (emptyEvaluator, Value.consList [.name "@@k", .float (ratTruncMod (3/2) 1)])
  ∧ evalStep 3 emptyEvaluator (Value.consList [.name "&%", .name "@@k", .float 1, .integer 2])
      = .error "Liszp: Cannot take the integer modulo of a float"
  ∧ evalStep 3 emptyEvaluator (Value.consList [.name "&%", .name "@@k", .integer 2, .float 1])
      = .panicked "unreachable" :=
  ⟨modulo_operand_combinations.1 3 emptyEvaluator (.name "@@k") 7 2 (by decide),
   modulo_operand_combinations.2.1 3 emptyEvaluator (.name "@@k") (3/2) 1,
   modulo_operand_combinations.2.2.1 3 emptyEvaluator (.name "@@k") 1 2,
   modulo_operand_combinations.2.2.2 3 emptyEvaluator (.name "@@k") 2 1⟩

/-! ## C4 -/

/-- C4 (confirmed): (&car k x) with x resolving to Quote(Cons(a, b))
yields (k a') and (&cdr k x) yields (k b'), where the selected element is
re-quoted exactly when it is a Cons or a Name; when x resolves to a Quote
of a non-Cons value, both produce a returned error. -/
theorem car_cdr_spec :
    (∀ (fuel : Nat) (ev : Evaluator) (k x a b : Value),
       resolve ev.globals x = .ok (.quote (.cons a b)) →
       evalStep fuel ev (Value.consList [.name "&car", k, x])
           = .ok (ev, Value.consList [k, requote a])
     ∧ evalStep fuel ev (Value.consList [.name "&cdr", k, x])
           = .ok (ev, Value.consList [k, requote b]))
  ∧ (∀ a b : Value, requote (.cons a b) = .quote (.cons a b))
  ∧ (∀ n : String, requote (.name n) = .quote (.name n))
  ∧ (∀ v : Value, v.isCons = false → v.isName = false → requote v = v)
  ∧ (∀ (fuel : Nat) (ev : Evaluator) (k x w : Value),
       resolve ev.globals x = .ok (.quote w) → w.isCons = false →
       (evalStep fuel ev (Value.consList [.name "&car", k, x])).isError = true
     ∧ (evalStep fuel ev (Value.consList [.name "&cdr", k, x])).isError = true) := by
  refine ⟨?_, fun a b => rfl, fun n => rfl, ?_, ?_⟩
  · intro fuel ev k x a b h
    constructor <;>
      simp [evalStep, evalStepPure, carBuiltin, cdrBuiltin, h, Value.consList, Value.toList,
            Value.toListCore, Value.nameStr, EvalResult.bind]
  · intro v h1 h2
    cases v <;> simp_all [requote, Value.isCons, Value.isName]
  · intro fuel ev k x w h hw
    cases w <;>
      simp_all [evalStep, evalStepPure, carBuiltin, cdrBuiltin, h, Value.consList, Value.toList,
                Value.toListCore, Value.nameStr, EvalResult.bind, Value.isCons,
                EvalResult.isError]

/-- C4 witness: car and cdr of the quoted pair (a . 2) — the Name car is
re-quoted, the Integer cdr is not — and the error case on a quoted nil. -/
theorem car_cdr_spec_witness :
    evalStep 3 emptyEvaluator
        (Value.consList [.name "&car", .name "@@k", .quote (.cons (.name "a") (.integer 2))])
      = .ok (emptyEvaluator, Value.consList [.name "@@k", requote (.name "a")])
  ∧ evalStep 3 emptyEvaluator
        (Value.consList [.name "&cdr", .name "@@k", .quote (.cons (.name "a") (.integer 2))])
      = .ok (emptyEvaluator, Value.consList [.name "@@k", requote (.integer 2)])
  ∧ (evalStep 3 emptyEvaluator
        (Value.consList [.name "&car", .name "@@k", .quote .nil])).isError = true :=
  ⟨(car_cdr_spec.1 3 emptyEvaluator (.name "@@k") (.quote (.cons (.name "a") (.integer 2)))
      (.name "a") (.integer 2) rfl).1,
   (car_cdr_spec.1 3 emptyEvaluator (.name "@@k") (.quote (.cons (.name "a") (.integer 2)))
      (.name "a") (.integer 2) rfl).2,
   (car_cdr_spec.2.2.2.2 3 emptyEvaluator (.name "@@k") (.quote .nil) .nil rfl (by decide)).1⟩

/-! ## C5 -/

/-- C5 (confirmed): an evaluator step whose head is not &def — in
particular every lambda call, which is the fall-through branch of the
dispatch — leaves the global environment unchanged: a prior binding n=V is
still present afterwards and a name absent before is absent afterwards.
(The source substitutes arguments into the body instead of installing
global bindings, so there is nothing to restore.) -/
theorem lambda_call_preserves_globals (fuel : Nat) (ev : Evaluator) (fn args : Value)
    (ev' : Evaluator) (v' : Value) (hfn : fn.nameStr ≠ "&def")
    (h : evalStep fuel ev (.cons fn args) = .ok (ev', v')) :
    ev'.globals = ev.globals
  ∧ (∀ (n : String) (V : Value),
       List.lookup n ev.globals = some V → List.lookup n ev'.globals = some V)
  ∧ (∀ n : String, List.lookup n ev.globals = none → List.lookup n ev'.globals = none) := by
  have hg : ev'.globals = ev.globals := by
    simp only [evalStep] at h
    cases htl : Value.toList args with
    | none => rw [htl] at h; simp at h
    | some argList =>
      rw [htl] at h
      cases hp : evalStepPure fuel ev.globals fn argList <;>
        simp [hfn, hp, EvalResult.bind] at h
      exact (congrArg Evaluator.globals h.1).symm
  exact ⟨hg, fun n V hv => by rw [hg]; exact hv, fun n hv => by rw [hg]; exact hv⟩

/-- C5 witness: calling the identity lambda bound to &f (with parameter
@@k and &x, where &x shadows nothing and &n stays bound) preserves the
concrete global environment. -/
theorem lambda_call_preserves_globals_witness :
    List.lookup "&n" lambdaEvaluator.globals = some (.integer 5)
  ∧ List.lookup "&zzz" lambdaEvaluator.globals = none :=
  have happ := lambda_call_preserves_globals 5 lambdaEvaluator (.name "&f")
      (Value.consList [.name "no-continuation", .integer 9]) lambdaEvaluator
      (Value.consList [.name "no-continuation", .integer 9]) (by decide) rfl
  ⟨happ.2.1 "&n" (.integer 5) rfl, happ.2.2 "&zzz" rfl⟩

/-! ## C3 -/

/-- C3 (counterexample): (&quote? k (Quote Nil)) yields (k (Bool true))
although seeing through the Quote wrapper would give false, and
(&float? k 1.0) is not dispatched to the float predicate at all — the
dispatch string is "&float" — so the call falls through to name resolution
and fails with an unbound-name error instead of yielding (k (Bool true)). -/
theorem predicate_counterexample :
    evalStep 5 emptyEvaluator (Value.consList [.name "&quote?", .name "@@k", .quote .nil])
      = .ok (emptyEvaluator, Value.consList [.name "@@k", .bool true])
  ∧ evalStep 5 emptyEvaluator (Value.consList [.name "&float?", .name "@@k", .float 1])
      = .error "unbound name \x27float?\x27" :=
  ⟨rfl, rfl⟩

/-- C3 (amended): the type predicates &bool?, &cons?, &int?, &nil?, &str?
resolve their argument and see through one Quote wrapper; the float
predicate is dispatched under the name &float (not &float?), so &float?
falls through to the lambda branch and errors when unbound; &name?
inspects its argument without resolving it (still unwrapping one Quote);
and &quote? reports whether the resolved value itself is a Quote, without
seeing through it. -/
theorem type_predicate_spec (fuel : Nat) (ev : Evaluator) (k v : Value)
    (hv : v.isName = false) :
    evalStep fuel ev (Value.consList [.name "&bool?", k, v])
        = .ok (ev, Value.consList [k, .bool (unquoteOnce v).isBool])
  ∧ evalStep fuel ev (Value.consList [.name "&cons?", k, v])
        = .ok (ev, Value.consList [k, .bool (unquoteOnce v).isCons])
  ∧ evalStep fuel ev (Value.consList [.name "&int?", k, v])
        = .ok (ev, Value.consList [k, .bool (unquoteOnce v).isInt])
  ∧ evalStep fuel ev (Value.consList [.name "&nil?", k, v])
        = .ok (ev, Value.consList [k, .bool (unquoteOnce v).isNil])
  ∧ evalStep fuel ev (Value.consList [.name "&str?", k, v])
        = .ok (ev, Value.consList [k, .bool (unquoteOnce v).isStr])
  ∧ evalStep fuel ev (Value.consList [.name "&float", k, v])
        = .ok (ev, Value.consList [k, .bool (unquoteOnce v).isFloat])
  ∧ (List.lookup "&float?" ev.globals = none →
       evalStep fuel ev (Value.consList [.name "&float?", k, v])
         = .error "unbound name \x27float?\x27")
  ∧ evalStep fuel ev (Value.consList [.name "&name?", k, v])
        = .ok (ev, Value.consList [k, .bool (unquoteOnce v).isName])
  ∧ evalStep fuel ev (Value.consList [.name "&quote?", k, v])
        = .ok (ev, Value.consList [k, .bool v.isQuote]) := by
  refine ⟨?_, ?_, ?_, ?_, ?_, ?_, ?_, ?_, ?_⟩
  · simp [evalStep, evalStepPure, valueIsBool, resolve_nonname _ _ hv, Value.consList,
          Value.toList, Value.toListCore, Value.nameStr, EvalResult.bind]
    cases v <;> simp [unquoteOnce, Value.isBool]
  · simp [evalStep, evalStepPure, valueIsCons, resolve_nonname _ _ hv, Value.consList,
          Value.toList, Value.toListCore, Value.nameStr, EvalResult.bind]
    cases v <;> simp [unquoteOnce, Value.isCons]
  · simp [evalStep, evalStepPure, valueIsInt, resolve_nonname _ _ hv, Value.consList,
          Value.toList, Value.toListCore, Value.nameStr, EvalResult.bind]
    cases v <;> simp [unquoteOnce, Value.isInt]
  · simp [evalStep, evalStepPure, valueIsNil, resolve_nonname _ _ hv, Value.consList,
          Value.toList, Value.toListCore, Value.nameStr, EvalResult.bind]
    cases v <;> simp [unquoteOnce, Value.isNil]
  · simp [evalStep, evalStepPure, valueIsStr, resolve_nonname _ _ hv, Value.consList,
          Value.toList, Value.toListCore, Value.nameStr, EvalResult.bind]
    cases v <;> simp [unquoteOnce, Value.isStr]
  · simp [evalStep, evalStepPure, valueIsFloat, resolve_nonname _ _ hv, Value.consList,
          Value.toList, Value.toListCore, Value.nameStr, EvalResult.bind]
    cases v <;> simp [unquoteOnce, Value.isFloat]
  · intro hlook
    simp [evalStep, evalStepPure, evaluateLambdaFuncall, resolve, hlook, Value.consList,
          Value.toList, Value.toListCore, Value.nameStr, EvalResult.bind]
    decide
  · simp [evalStep, evalStepPure, valueIsName, Value.consList,
          Value.toList, Value.toListCore, Value.nameStr, EvalResult.bind]
    cases v <;> simp [unquoteOnce, Value.isName]
  · simp [evalStep, evalStepPure, valueIsQuote, resolve_nonname _ _ hv, Value.consList,
          Value.toList, Value.toListCore, Value.nameStr, EvalResult.bind]
    cases v <;> rfl

/-- C3 witness: the amended claim applied to the value Bool true under an
empty global environment. -/
theorem type_predicate_spec_witness :
    evalStep 3 emptyEvaluator (Value.consList [.name "&bool?", .name "@@k", .bool true])
        = .ok (emptyEvaluator, Value.consList [.name "@@k", .bool ((unquoteOnce (.bool true)).isBool)])
  ∧ evalStep 3 emptyEvaluator (Value.consList [.name "&float", .name "@@k", .bool true])
        = .ok (emptyEvaluator, Value.consList [.name "@@k", .bool ((unquoteOnce (.bool true)).isFloat)])
  ∧ evalStep 3 emptyEvaluator (Value.consList [.name "&float?", .name "@@k", .bool true])
        = .error "unbound name \x27float?\x27"
  ∧ evalStep 3 emptyEvaluator (Value.consList [.name "&quote?", .name "@@k", .bool true])
        = .ok (emptyEvaluator, Value.consList [.name "@@k", .bool ((Value.bool true).isQuote)]) :=
  have happ := type_predicate_spec 3 emptyEvaluator (.name "@@k") (.bool true) (by decide)
  ⟨happ.1, happ.2.2.2.2.2.1, happ.2.2.2.2.2.2.1 rfl, happ.2.2.2.2.2.2.2.2⟩

/-! ## C2 -/

/-- Characterization of the PartialEq impl: two values compare equal
exactly when they are structurally identical and contain no String
(the missing String arm makes any comparison touching a String false). -/
theorem valueEq_char (x y : Value) :
    valueEq x y = true ↔ (x = y ∧ stringFree x = true) := by
  induction x generalizing y with
  | cons a b iha ihb =>
    cases y <;> simp [valueEq, stringFree, iha, ihb]
    tauto
  | quote a ih =>
    cases y <;> simp [valueEq, stringFree, ih]
  | name a => cases y <;> simp [valueEq, stringFree]
  | integer a => cases y <;> simp [valueEq, stringFree]
  | float a => cases y <;> simp [valueEq, stringFree]
  | string a => cases y <;> simp [valueEq, stringFree]
  | bool a => cases y <;> simp [valueEq, stringFree]
  | nil => cases y <;> simp [valueEq, stringFree]

/-- C2 (counterexample): &equals? applied to the String value "a" and
itself yields (k (Bool false)), not (k (Bool true)) — reflexivity fails on
the String variant because the PartialEq impl has no String arm. -/
theorem equals_string_counterexample :
    evalStep 5 emptyEvaluator
        (Value.consList [.name "&equals?", .name "@@k", .string "\"a\"", .string "\"a\""])
      = .ok (emptyEvaluator, Value.consList [.name "@@k", .bool false]) :=
  rfl

/-- C2 (amended): &equals? computes the PartialEq relation, which is
symmetric and transitive on all values and reflexive on every value that
contains no String; two String values always compare false (so
reflexivity fails exactly on values containing Strings); Cons comparison
is structural and Quote(x) equals Quote(y) iff x equals y; at evaluator
input (&equals? k x y) yields (k (Bool (x == y))). -/
theorem equals_equivalence_spec :
    (∀ x y : Value, valueEq x y = valueEq y x)
  ∧ (∀ x y z : Value, valueEq x y = true → valueEq y z = true → valueEq x z = true)
  ∧ (∀ x : Value, stringFree x = true → valueEq x x = true)
  ∧ (∀ s t : String, valueEq (.string s) (.string t) = false)
  ∧ (∀ a b c d : Value, valueEq (.cons a b) (.cons c d) = (valueEq a c && valueEq b d))
  ∧ (∀ x y : Value, valueEq (.quote x) (.quote y) = valueEq x y)
  ∧ (∀ (fuel : Nat) (ev : Evaluator) (k x y : Value), x.isName = false → y.isName = false →
       evalStep fuel ev (Value.consList [.name "&equals?", k, x, y])
         = .ok (ev, Value.consList [k, .bool (valueEq x y)])) := by
  refine ⟨?_, ?_, ?_, fun s t => rfl, fun a b c d => rfl, fun x y => rfl, ?_⟩
  · intro x y
    rw [Bool.eq_iff_iff, valueEq_char, valueEq_char]
    constructor
    · rintro ⟨rfl, h⟩; exact ⟨rfl, h⟩
    · rintro ⟨rfl, h⟩; exact ⟨rfl, h⟩
  · intro x y z h1 h2
    rw [valueEq_char] at h1 h2 ⊢
    exact ⟨h1.1.trans h2.1, h1.2⟩
  · intro x h
    exact (valueEq_char x x).mpr ⟨rfl, h⟩
  · intro fuel ev k x y hx hy
    simp [evalStep, evalStepPure, valuesAreEqual, resolve_nonname _ _ hx,
          resolve_nonname _ _ hy, Value.consList, Value.toList, Value.toListCore,
          Value.nameStr, EvalResult.bind]

/-- C2 witness: the amended claim applied at concrete values — symmetry at
(1, nil), transitivity at quoted pairs, reflexivity at a String-free cons,
and the evaluator step at (&equals? k 1 1). -/
theorem equals_equivalence_spec_witness :
    valueEq (.integer 1) .nil = valueEq .nil (.integer 1)
  ∧ valueEq (.quote (.integer 2)) (.quote (.integer 2)) = true
  ∧ valueEq (.cons (.integer 1) .nil) (.cons (.integer 1) .nil) = true
  ∧ evalStep 3 emptyEvaluator
        (Value.consList [.name "&equals?", .name "@@k", .integer 1, .integer 1])
      = .ok (emptyEvaluator, Value.consList [.name "@@k", .bool (valueEq (.integer 1) (.integer 1))]) :=
  ⟨equals_equivalence_spec.1 (.integer 1) .nil,
   equals_equivalence_spec.2.1 (.quote (.integer 2)) (.quote (.integer 2)) (.quote (.integer 2))
     (by decide) (by decide),
   equals_equivalence_spec.2.2.1 (.cons (.integer 1) .nil) (by decide),
   equals_equivalence_spec.2.2.2.2.2.2 3 emptyEvaluator (.name "@@k") (.integer 1) (.integer 1)
     (by decide) (by decide)⟩

/-! ## C6 -/

/-- to_list inverts cons_list. -/
theorem toList_consList (ys : List Value) : Value.toList (Value.consList ys) = some ys := by
  cases ys with
  | nil => rfl
  | cons y ys =>
    simp [Value.consList, Value.toList, List.foldr,
          toListCore_foldr ys Value.nil (by simp [Value.isCons])]

/-- One evaluator step on a proper-list call with a non-&def head is the
pure dispatch. -/
theorem evalStep_apply (fuel : Nat) (ev : Evaluator) (fn : Value) (argsL : List Value)
    (hfn : fn.nameStr ≠ "&def") :
    evalStep fuel ev (.cons fn (Value.consList argsL))
      = (evalStepPure fuel ev.globals fn argsL).bind fun v => .ok (ev, v) := by
  simp [evalStep, toList_consList, hfn]

/-- The four arithmetic head names dispatch to arithmetic_expression. -/
theorem evalStepPure_arith (fuel : Nat) (g : Globals) (op : String) (args : List Value)
    (hop : op = "&+" ∨ op = "&-" ∨ op = "&*" ∨ op = "&/") :
    evalStepPure fuel g (.name op) args = arithmeticExpression g op args := by
  rcases hop with h | h | h | h <;> subst h <;> rfl

/-- Integer literals pass the operand-collection loop unchanged. -/
theorem collectNumbers_integers (g : Globals) (op : String) (xs : List Int) :
    collectNumbers g op (xs.map Value.integer) = .ok (xs.map Value.integer) := by
  induction xs with
  | nil => rfl
  | cons x xs ih => simp [collectNumbers, resolve, ih, EvalResult.bind]

/-- Numeric values pass the operand-collection loop unchanged. -/
theorem collectNumbers_numeric (g : Globals) (op : String) (vs : List Value)
    (h : ∀ v ∈ vs, v.isNumeric = true) :
    collectNumbers g op vs = .ok vs := by
  induction vs with
  | nil => rfl
  | cons v vs ih =>
    have hv := h v (by simp)
    have ih' := ih fun w hw => h w (List.mem_cons_of_mem _ hw)
    cases v <;> simp_all [collectNumbers, resolve, Value.isNumeric, EvalResult.bind]

/-- A list of integer literals contains no Float. -/
theorem map_integer_no_float (xs : List Int) :
    (xs.map Value.integer).any Value.isFloat = false := by
  induction xs with
  | nil => rfl
  | cons x xs ih => simp_all [Value.isFloat]

/-- The integer fold computes the left fold of the reference operator for
&+, &-, &*. -/
theorem integerFold_closed (op : String) (hop : op = "&+" ∨ op = "&-" ∨ op = "&*")
    (acc : Int) (xs : List Int) :
    integerFold op acc (xs.map Value.integer) = .ok (List.foldl (intOpRef op) acc xs) := by
  induction xs generalizing acc with
  | nil => rcases hop with h | h | h <;> subst h <;> rfl
  | cons x xs ih =>
    rcases hop with h | h | h <;> subst h <;>
      simp [integerFold, intOpRef, List.foldl, ih]

/-- The integer fold for &/ computes the left fold of truncated division
when no divisor is zero. -/
theorem integerFold_div (acc : Int) (xs : List Int) (hz : (0 : Int) ∉ xs) :
    integerFold "&/" acc (xs.map Value.integer) = .ok (List.foldl Int.tdiv acc xs) := by
  induction xs generalizing acc with
  | nil => rfl
  | cons x xs ih =>
    have hx : ¬(x = 0) := by rintro rfl; exact hz (by simp)
    have hz' : (0 : Int) ∉ xs := fun hm => hz (by simp [hm])
    simp [integerFold, hx, List.foldl]
    exact ih _ hz'

/-- The float fold computes the left fold of the reference rational
operator over the widened operands. -/
theorem floatFold_ref (op : String)
    (hop : op = "&+" ∨ op = "&-" ∨ op = "&*" ∨ op = "&/")
    (acc : Rat) (vs : List Value) (h : ∀ v ∈ vs, v.isNumeric = true) :
    floatFold op acc vs = .ok (List.foldl (ratOpRef op) acc (vs.map widen)) := by
  induction vs generalizing acc with
  | nil => rcases hop with h' | h' | h' | h' <;> subst h' <;> rfl
  | cons v vs ih =>
    have hv := h v (by simp)
    have ih' := fun acc => ih acc fun w hw => h w (List.mem_cons_of_mem _ hw)
    cases v <;> simp_all [Value.isNumeric] <;>
      rcases hop with h' | h' | h' | h' <;> subst h' <;>
        simp [floatFold, ratOpRef, widen, List.foldl, EvalResult.bind, ih']

/-- Integer arithmetic equals the reference fold (with unary &- negating a
single operand). -/
theorem integerArithmetic_ref (op : String)
    (hop : op = "&+" ∨ op = "&-" ∨ op = "&*" ∨ op = "&/")
    (x : Int) (xs : List Int) (hz : op = "&/" → (0 : Int) ∉ xs) :
    integerArithmetic op ((x :: xs).map Value.integer)
      = .ok (.integer (arithRefInt op x xs)) := by
  have hfold : integerFold op x (xs.map Value.integer)
      = .ok (List.foldl (intOpRef op) x xs) := by
    rcases hop with h | h | h | h
    · exact integerFold_closed op (by simp [h]) x xs
    · exact integerFold_closed op (by simp [h]) x xs
    · exact integerFold_closed op (by simp [h]) x xs
    · subst h
      have hfix : intOpRef "&/" = Int.tdiv := by funext a b; rfl
      rw [hfix]
      exact integerFold_div x xs (hz rfl)
  simp only [integerArithmetic, List.map]
  rw [hfold]
  simp only [EvalResult.bind]
  cases xs with
  | nil =>
    rcases hop with h | h | h | h <;> subst h <;>
      simp [arithRefInt, intOpRef, List.foldl]
  | cons y ys =>
    rcases hop with h | h | h | h <;> subst h <;>
      simp [arithRefInt, List.foldl]

/-- Float arithmetic equals the reference rational fold over the widened
operands (with unary &- negating a single operand). -/
theorem floatArithmetic_ref (op : String)
    (hop : op = "&+" ∨ op = "&-" ∨ op = "&*" ∨ op = "&/")
    (v : Value) (vs : List Value) (hv : v.isNumeric = true)
    (h : ∀ w ∈ vs, w.isNumeric = true) :
    floatArithmetic op (v :: vs) = .ok (.float (arithRefRat op (widen v) (vs.map widen))) := by
  have hfold := floatFold_ref op hop (widen v) vs h
  cases v <;> simp_all [Value.isNumeric] <;>
  · simp only [floatArithmetic, EvalResult.bind, widen] at hfold ⊢
    rw [hfold]
    simp only [EvalResult.bind]
    cases vs with
    | nil =>
      rcases hop with h' | h' | h' | h' <;> subst h' <;>
        simp [arithRefRat, ratOpRef, List.foldl, widen]
    | cons w ws =>
      rcases hop with h' | h' | h' | h' <;> subst h' <;>
        simp [arithRefRat, List.foldl, widen]

/-- C6 (confirmed): the variadic arithmetic built-ins require at least one
operand; on all-Integer operands the result is the Integer left fold of
the arbitrary-precision reference operator starting at the first operand
(&/ truncating toward zero, no overflow), with unary &- negating; if any
operand is a Float, every Integer operand is widened and the result is the
Float left fold over the widened operands. -/
theorem arithmetic_spec :
    (∀ (fuel : Nat) (ev : Evaluator) (op : String) (k : Value),
       (op = "&+" ∨ op = "&-" ∨ op = "&*" ∨ op = "&/") →
       evalStep fuel ev (.cons (.name op) (Value.consList [k]))
         = .error ("Liszp: \x27" ++ op ++ "\x27 expression takes at least 1 argument"))
  ∧ (∀ (fuel : Nat) (ev : Evaluator) (op : String) (k : Value) (x : Int) (xs : List Int),
       (op = "&+" ∨ op = "&-" ∨ op = "&*" ∨ op = "&/") → (op = "&/" → (0 : Int) ∉ xs) →
       evalStep fuel ev (.cons (.name op) (Value.consList (k :: (x :: xs).map Value.integer)))
         = .ok (ev, Value.consList [k, .integer (arithRefInt op x xs)]))
  ∧ (∀ (fuel : Nat) (ev : Evaluator) (op : String) (k v : Value) (vs : List Value),
       (op = "&+" ∨ op = "&-" ∨ op = "&*" ∨ op = "&/") →
       (∀ w ∈ v :: vs, w.isNumeric = true) → (v :: vs).any Value.isFloat = true →
       evalStep fuel ev (.cons (.name op) (Value.consList (k :: v :: vs)))
         = .ok (ev, Value.consList [k, .float (arithRefRat op (widen v) (vs.map widen))])) := by
  have hdef : ∀ op : String, (op = "&+" ∨ op = "&-" ∨ op = "&*" ∨ op = "&/") →
      (Value.name op).nameStr ≠ "&def" := by
    intro op hop
    rcases hop with h | h | h | h <;> subst h <;> decide
  refine ⟨?_, ?_, ?_⟩
  · intro fuel ev op k hop
    rw [evalStep_apply fuel ev _ [k] (hdef op hop), evalStepPure_arith fuel _ op [k] hop]
    simp [arithmeticExpression, EvalResult.bind]
  · intro fuel ev op k x xs hop hz
    rw [evalStep_apply fuel ev _ _ (hdef op hop), evalStepPure_arith fuel _ op _ hop]
    have hcn := collectNumbers_integers ev.globals op (x :: xs)
    have hia := integerArithmetic_ref op hop x xs hz
    have hnf := map_integer_no_float (x :: xs)
    simp only [List.map] at hcn hia hnf
    have hlt : ¬(xs.length + 1 + 1 < 2) := by omega
    simp [arithmeticExpression, hcn, hia, hnf, EvalResult.bind, Value.isFloat, hlt]
  · intro fuel ev op k v vs hop hall hfl
    rw [evalStep_apply fuel ev _ _ (hdef op hop), evalStepPure_arith fuel _ op _ hop]
    have hv := hall v (by simp)
    have hrest : ∀ w ∈ vs, w.isNumeric = true :=
      fun w hw => hall w (List.mem_cons_of_mem _ hw)
    simp only [List.any_cons, List.any_eq_true, Bool.or_eq_true] at hfl
    have hlt : ¬(vs.length + 1 + 1 < 2) := by omega
    simp [arithmeticExpression, collectNumbers_numeric _ op _ hall, hfl, hlt,
          floatArithmetic_ref op hop v vs hv hrest, EvalResult.bind]

/-- C6 witness: (&+ k 1 2 3) = 6, (&/ k -7 2) = -3 (toward zero),
(&- k 5) = -5, and (&* k 1.5 2) promotes to Float 3. -/
theorem arithmetic_spec_witness :
    evalStep 3 emptyEvaluator
        (.cons (.name "&+") (Value.consList (.name "@@k" :: ([1, 2, 3] : List Int).map Value.integer)))
      = .ok (emptyEvaluator, Value.consList [.name "@@k", .integer (arithRefInt "&+" 1 [2, 3])])
  ∧ evalStep 3 emptyEvaluator
        (.cons (.name "&/") (Value.consList (.name "@@k" :: ([-7, 2] : List Int).map Value.integer)))
      = .ok (emptyEvaluator, Value.consList [.name "@@k", .integer (arithRefInt "&/" (-7) [2])])
  ∧ evalStep 3 emptyEvaluator
        (.cons (.name "&-") (Value.consList (.name "@@k" :: ([5] : List Int).map Value.integer)))
      = .ok (emptyEvaluator, Value.consList [.name "@@k", .integer (arithRefInt "&-" 5 [])])
  ∧ evalStep 3 emptyEvaluator
        (.cons (.name "&*") (Value.consList [.name "@@k", .float (3/2), .integer 2]))
      = .ok (emptyEvaluator,
             Value.consList [.name "@@k",
               .float (arithRefRat "&*" (widen (.float (3/2))) ([Value.integer 2].map widen))])
  ∧ evalStep 3 emptyEvaluator (.cons (.name "&+") (Value.consList [.name "@@k"]))
      = .error ("Liszp: \x27" ++ "&+" ++ "\x27 expression takes at least 1 argument") :=
  ⟨arithmetic_spec.2.1 3 emptyEvaluator "&+" (.name "@@k") 1 [2, 3] (by tauto) (by decide),
   arithmetic_spec.2.1 3 emptyEvaluator "&/" (.name "@@k") (-7) [2] (by tauto) (by decide),
   arithmetic_spec.2.1 3 emptyEvaluator "&-" (.name "@@k") 5 [] (by tauto) (by decide),
   arithmetic_spec.2.2 3 emptyEvaluator "&*" (.name "@@k") (.float (3/2)) [.integer 2]
     (by tauto) (by decide) (by decide),
   arithmetic_spec.1 3 emptyEvaluator "&+" (.name "@@k") (by tauto)⟩

/-! ## C1 -/

/-- A machine continuation label can never be the sentinel name. -/
theorem append_k_ne (s : String) : ("@@k" ++ s) ≠ "no-continuation" := by
  intro h
  have hd : ("@@k".data ++ s.data) = "no-continuation".data := by
    rw [← String.data_append]
    exact congrArg String.data h
  have h2 : List.head? ("@@k".data ++ s.data) = List.head? "no-continuation".data :=
    congrArg List.head? hd
  simp [show "@@k".data = ['@', '@', 'k'] from rfl,
        show "no-continuation".data = ['n', 'o', '-', 'c', 'o', 'n', 't', 'i', 'n', 'u',
                                       'a', 't', 'i', 'o', 'n'] from rfl] at h2

/-- Continuation labels contain no occurrence of no-continuation. -/
theorem ncCount_label (st : CPSState) : ncCount (continuationLabel st) = 0 := by
  simp [continuationLabel, ncCount, append_k_ne]

/-- An if-free tree has no conditional for find_conditional to find. -/
theorem findConditional_none (v : Value) (h : ifFree v = true) : findConditional v = none := by
  induction v with
  | cons a b iha ihb =>
    simp only [ifFree, Bool.and_eq_true, Bool.not_eq_true', beq_eq_false_iff_ne] at h
    obtain ⟨⟨hne, ha⟩, hb⟩ := h
    simp [findConditional, hne, iha ha, ihb hb]
  | name s => rfl
  | integer i => rfl
  | float q => rfl
  | string s => rfl
  | bool b => rfl
  | quote v ih => rfl
  | nil => rfl

/-- Conditional hoisting is the identity on if-free expressions. -/
theorem moveConditionals_ifFree (n : Nat) (e : Value) (h : ifFree e = true) :
    moveConditionals (n + 1) e = .ok e := by
  simp [moveConditionals, findConditional_none e h]

/-- convert_conditional declines every expression whose head is not the
Name &if, in particular every if-free expression. -/
theorem convertConditional_not_if (n : Nat) (st : CPSState) (e : Value)
    (h : ifFree e = true) : convertConditional (n + 1) st e = .ok none := by
  cases e
  case cons a b =>
    simp only [ifFree, Bool.and_eq_true, Bool.not_eq_true', beq_eq_false_iff_ne] at h
    simp [convertConditional, Value.toList, h.1.1]
  all_goals rfl

/-- The elements collected by the to_list loop inherit absence of the
sentinel. -/
theorem toListCore_ncCount (v : Value) (h : ncCount v = 0) :
    ∀ x ∈ Value.toListCore v, ncCount x = 0 := by
  induction v with
  | cons a b _ ihb =>
    simp only [ncCount, Nat.add_eq_zero] at h
    intro x hx
    simp only [Value.toListCore, List.mem_cons] at hx
    rcases hx with rfl | hx
    · exact h.1
    · exact ihb h.2 x hx
  | name s => intro x hx; simp [Value.toListCore] at hx
  | integer i => intro x hx; simp [Value.toListCore] at hx
  | float q => intro x hx; simp [Value.toListCore] at hx
  | string s => intro x hx; simp [Value.toListCore] at hx
  | bool b => intro x hx; simp [Value.toListCore] at hx
  | quote w _ => intro x hx; simp [Value.toListCore] at hx
  | nil => intro x hx; simp [Value.toListCore] at hx

/-- The elements collected by the to_list loop inherit if-freeness. -/
theorem toListCore_ifFree (v : Value) (h : ifFree v = true) :
    ∀ x ∈ Value.toListCore v, ifFree x = true := by
  induction v with
  | cons a b _ ihb =>
    simp only [ifFree, Bool.and_eq_true] at h
    intro x hx
    simp only [Value.toListCore, List.mem_cons] at hx
    rcases hx with rfl | hx
    · exact h.1.2
    · exact ihb h.2 x hx
  | name s => intro x hx; simp [Value.toListCore] at hx
  | integer i => intro x hx; simp [Value.toListCore] at hx
  | float q => intro x hx; simp [Value.toListCore] at hx
  | string s => intro x hx; simp [Value.toListCore] at hx
  | bool b => intro x hx; simp [Value.toListCore] at hx
  | quote w _ => intro x hx; simp [Value.toListCore] at hx
  | nil => intro x hx; simp [Value.toListCore] at hx

/-- Components of an expression inherit absence of the sentinel. -/
theorem toList_ncCount (v : Value) (xs : List Value) (hv : Value.toList v = some xs)
    (h : ncCount v = 0) : ∀ x ∈ xs, ncCount x = 0 := by
  cases v with
  | cons a b =>
    simp only [Value.toList, Option.some.injEq] at hv
    subst hv
    simp only [ncCount, Nat.add_eq_zero] at h
    intro x hx
    rcases List.mem_cons.mp hx with rfl | hx
    · exact h.1
    · exact toListCore_ncCount b h.2 x hx
  | nil =>
    simp only [Value.toList, Option.some.injEq] at hv
    subst hv
    intro x hx
    simp at hx
  | name s => simp [Value.toList] at hv
  | integer i => simp [Value.toList] at hv
  | float q => simp [Value.toList] at hv
  | string s => simp [Value.toList] at hv
  | bool b => simp [Value.toList] at hv
  | quote w => simp [Value.toList] at hv

/-- Components of an expression inherit if-freeness. -/
theorem toList_ifFree (v : Value) (xs : List Value) (hv : Value.toList v = some xs)
    (h : ifFree v = true) : ∀ x ∈ xs, ifFree x = true := by
  cases v with
  | cons a b =>
    simp only [Value.toList, Option.some.injEq] at hv
    subst hv
    simp only [ifFree, Bool.and_eq_true] at h
    intro x hx
    rcases List.mem_cons.mp hx with rfl | hx
    · exact h.1.2
    · exact toListCore_ifFree b h.2 x hx
  | nil =>
    simp only [Value.toList, Option.some.injEq] at hv
    subst hv
    intro x hx
    simp at hx
  | name s => simp [Value.toList] at hv
  | integer i => simp [Value.toList] at hv
  | float q => simp [Value.toList] at hv
  | string s => simp [Value.toList] at hv
  | bool b => simp [Value.toList] at hv
  | quote w => simp [Value.toList] at hv

/-- cons_list of sentinel-free values is sentinel-free. -/
theorem ncCount_consList_zero (ys : List Value) (h : ∀ y ∈ ys, ncCount y = 0) :
    ncCount (Value.consList ys) = 0 := by
  induction ys with
  | nil => rfl
  | cons y ys ih =>
    simp only [Value.consList, List.foldr, ncCount, Nat.add_eq_zero]
    exact ⟨h y (by simp), ih fun z hz => h z (List.mem_cons_of_mem _ hz)⟩

/-- An entry of an enumerated list is an element of the list. -/
theorem snd_mem_of_mem_enumFrom {α : Type} :
    ∀ (l : List α) (n : Nat) (p : Nat × α), p ∈ l.enumFrom n → p.2 ∈ l := by
  intro l
  induction l with
  | nil => intro n p hp; simp [List.enumFrom] at hp
  | cons x xs ih =>
    intro n p hp
    simp only [List.enumFrom, List.mem_cons] at hp
    rcases hp with rfl | hp
    · simp
    · exact List.mem_cons_of_mem _ (ih (n + 1) p hp)

/-- The assembly loop introduces no occurrence of the sentinel beyond the
ones already inside the continuation being wrapped. -/
theorem assembleCore_ncCount :
    ∀ (items : List (Nat × Value)) (conv : Value) (atomic : Bool),
      (∀ p ∈ items, ncCount p.2 = 0) →
      ncCount (assembleCore items conv atomic).1 = ncCount conv := by
  intro items
  induction items with
  | nil => intro conv atomic _; rfl
  | cons p rest ih =>
    intro conv atomic h
    obtain ⟨i, e⟩ := p
    have he := h (i, e) (by simp)
    have hrest : ∀ q ∈ rest, ncCount q.2 = 0 := fun q hq => h q (List.mem_cons_of_mem _ hq)
    cases e with
    | cons car cdr =>
      simp only [ncCount, Nat.add_eq_zero] at he
      cases atomic <;>
        simp [assembleCore, ih _ _ hrest, ncCount, he.1, he.2, Value.consList,
              append_k_ne, List.foldr]
    | name s => simpa [assembleCore] using ih conv atomic hrest
    | integer x => simpa [assembleCore] using ih conv atomic hrest
    | float q => simpa [assembleCore] using ih conv atomic hrest
    | string s => simpa [assembleCore] using ih conv atomic hrest
    | bool b => simpa [assembleCore] using ih conv atomic hrest
    | quote w => simpa [assembleCore] using ih conv atomic hrest
    | nil => simpa [assembleCore] using ih conv atomic hrest

/-- assemble_cps_expression over a sentinel-free dfs vector and original
expression has exactly the sentinel occurrences of the continuation. -/
theorem assembleCps_ncCount (st : CPSState) (orig : Value)
    (hdfs : ∀ v ∈ st.dfs, ncCount v = 0) (horig : ncCount orig = 0) :
    ncCount (assembleCps st orig) = ncCount st.continuation := by
  have hitems : ∀ p ∈ st.dfs.enum.reverse, ncCount p.2 = 0 := by
    intro p hp
    rw [List.mem_reverse] at hp
    exact hdfs p.2 (snd_mem_of_mem_enumFrom st.dfs 0 p hp)
  have hcore := assembleCore_ncCount st.dfs.enum.reverse st.continuation true hitems
  unfold assembleCps
  rcases hc : assembleCore st.dfs.enum.reverse st.continuation true with ⟨conv, atomic⟩
  rw [hc] at hcore
  cases atomic <;> simp_all [ncCount, Value.consList, List.foldr]

set_option maxHeartbeats 2000000

/-- The CPS converter preserves sentinel occurrences: converting an if-free,
sentinel-free expression produces exactly the occurrences contained in the
supplied continuation; the dfs state stays sentinel-free, labels are
sentinel-free and the stored continuation is untouched. -/
theorem cps_nc_invariant : ∀ fuel : Nat,
    (∀ (e k r : Value), ifFree e = true → ncCount e = 0 →
       convertExprWithCont fuel e k = .ok r → ncCount r = ncCount k)
  ∧ (∀ (st : CPSState) (e : Value) (sv : CPSState × Value),
       (∀ v ∈ st.dfs, ncCount v = 0) → ifFree e = true → ncCount e = 0 →
       recursiveConvertExpr fuel st e = .ok sv →
       (∀ v ∈ sv.1.dfs, ncCount v = 0) ∧ ncCount sv.2 = 0
         ∧ sv.1.continuation = st.continuation)
  ∧ (∀ (st : CPSState) (es : List Value) (sv : CPSState × List Value),
       (∀ v ∈ st.dfs, ncCount v = 0) → (∀ x ∈ es, ifFree x = true ∧ ncCount x = 0) →
       recursiveConvertList fuel st es = .ok sv →
       (∀ v ∈ sv.1.dfs, ncCount v = 0) ∧ (∀ y ∈ sv.2, ncCount y = 0)
         ∧ sv.1.continuation = st.continuation)
  ∧ (∀ (comps : List Value) (r : Value),
       (∀ x ∈ comps, ifFree x = true ∧ ncCount x = 0) →
       convertLambda fuel comps = .ok r → ncCount r = 0)
  ∧ (∀ (st : CPSState) (comps : List Value) (sv : CPSState × Value),
       (∀ v ∈ st.dfs, ncCount v = 0) → (∀ x ∈ comps, ifFree x = true ∧ ncCount x = 0) →
       convertQuote fuel st comps = .ok sv →
       (∀ v ∈ sv.1.dfs, ncCount v = 0) ∧ ncCount sv.2 = 0
         ∧ sv.1.continuation = st.continuation)
  ∧ (∀ (st : CPSState) (e : Value) (sv : CPSState × Value),
       (∀ v ∈ st.dfs, ncCount v = 0) → ifFree e = true → ncCount e = 0 →
       applyUnquote fuel st e = .ok sv →
       (∀ v ∈ sv.1.dfs, ncCount v = 0) ∧ ncCount sv.2 = 0
         ∧ sv.1.continuation = st.continuation)
  ∧ (∀ (st : CPSState) (es : List Value) (sv : CPSState × List Value),
       (∀ v ∈ st.dfs, ncCount v = 0) → (∀ x ∈ es, ifFree x = true ∧ ncCount x = 0) →
       applyUnquoteList fuel st es = .ok sv →
       (∀ v ∈ sv.1.dfs, ncCount v = 0) ∧ (∀ y ∈ sv.2, ncCount y = 0)
         ∧ sv.1.continuation = st.continuation) := by
  intro fuel
  induction fuel with
  | zero =>
    refine ⟨?_, ?_, ?_, ?_, ?_, ?_, ?_⟩ <;> intros <;>
      simp_all [convertExprWithCont, recursiveConvertExpr, recursiveConvertList,
                convertLambda, convertQuote, applyUnquote, applyUnquoteList]
  | succ n ih =>
    obtain ⟨ihC, ihR, ihRL, ihL, ihQ, ihU, ihUL⟩ := ih
    refine ⟨?_, ?_, ?_, ?_, ?_, ?_, ?_⟩
    -- convert_expr_with_continuation
    · intro e k r hif hnc hok
      cases n with
      | zero =>
        simp [convertExprWithCont, moveConditionals, EvalResult.bind] at hok
      | succ m =>
        simp only [convertExprWithCont, moveConditionals_ifFree m e hif,
                   convertConditional_not_if m _ e hif, EvalResult.bind] at hok
        cases hrec : recursiveConvertExpr (m + 1) ⟨[], k⟩ e with
        | ok sv =>
          rw [hrec] at hok
          simp only [EvalResult.ok.injEq] at hok
          obtain ⟨hdfs, _, hcont⟩ := ihR ⟨[], k⟩ e sv (by simp) hif hnc hrec
          have hass := assembleCps_ncCount sv.1 e hdfs hnc
          rw [hcont] at hass
          rw [← hok]
          exact hass
        | error msg => rw [hrec] at hok; simp at hok
        | panicked msg => rw [hrec] at hok; simp at hok
    -- recursive_convert_expr
    · intro st e sv hst hif hnc hok
      cases htl : Value.toList e with
      | none =>
        simp only [recursiveConvertExpr, htl, EvalResult.ok.injEq] at hok
        subst hok
        exact ⟨hst, hnc, rfl⟩
      | some comps =>
        have hmem : ∀ x ∈ comps, ifFree x = true ∧ ncCount x = 0 := fun x hx =>
          ⟨toList_ifFree e comps htl hif x hx, toList_ncCount e comps htl hnc x hx⟩
        cases comps with
        | nil =>
          simp only [recursiveConvertExpr, htl, EvalResult.ok.injEq] at hok
          subst hok
          exact ⟨hst, rfl, rfl⟩
        | cons c0 rest =>
          simp only [recursiveConvertExpr, htl] at hok
          by_cases hd : c0.nameStr = "&defmacro"
          · rw [if_pos hd] at hok
            simp only [EvalResult.ok.injEq] at hok
            subst hok
            exact ⟨hst, hnc, rfl⟩
          · rw [if_neg hd] at hok
            by_cases hl : c0.nameStr = "&lambda"
            · rw [if_pos hl] at hok
              cases hcl : convertLambda n (c0 :: rest) with
              | ok v =>
                rw [hcl] at hok
                simp only [EvalResult.bind, EvalResult.ok.injEq] at hok
                subst hok
                exact ⟨hst, ihL (c0 :: rest) v hmem hcl, rfl⟩
              | error m => rw [hcl] at hok; simp [EvalResult.bind] at hok
              | panicked m => rw [hcl] at hok; simp [EvalResult.bind] at hok
            · rw [if_neg hl] at hok
              by_cases hq : c0.nameStr = "&quote"
              · rw [if_pos hq] at hok
                exact ihQ st (c0 :: rest) sv hst hmem hok
              · rw [if_neg hq] at hok
                cases hrl : recursiveConvertList n st rest with
                | ok svl =>
                  rw [hrl] at hok
                  simp only [EvalResult.bind, EvalResult.ok.injEq] at hok
                  obtain ⟨hst', hlab, hcont⟩ := ihRL st rest svl hst
                    (fun x hx => hmem x (List.mem_cons_of_mem _ hx)) hrl
                  subst hok
                  refine ⟨?_, ncCount_label _, hcont⟩
                  intro v hv
                  rcases List.mem_append.mp hv with hv | hv
                  · exact hst' v hv
                  · simp only [List.mem_singleton] at hv
                    subst hv
                    refine ncCount_consList_zero _ ?_
                    intro y hy
                    rcases List.mem_cons.mp hy with rfl | hy
                    · exact (hmem y (by simp)).2
                    · exact hlab y hy
                | error m => rw [hrl] at hok; simp [EvalResult.bind] at hok
                | panicked m => rw [hrl] at hok; simp [EvalResult.bind] at hok
    -- recursive_convert_expr loop over components
    · intro st es sv hst hall hok
      cases es with
      | nil =>
        simp only [recursiveConvertList, EvalResult.ok.injEq] at hok
        subst hok
        exact ⟨hst, by simp, rfl⟩
      | cons x xs =>
        simp only [recursiveConvertList] at hok
        cases h1 : recursiveConvertExpr n st x with
        | ok sv1 =>
          rw [h1] at hok
          simp only [EvalResult.bind] at hok
          cases h2 : recursiveConvertList n sv1.1 xs with
          | ok sv2 =>
            rw [h2] at hok
            simp only [EvalResult.bind, EvalResult.ok.injEq] at hok
            obtain ⟨hst1, hx1, hc1⟩ := ihR st x sv1 hst (hall x (by simp)).1
              (hall x (by simp)).2 h1
            obtain ⟨hst2, hys, hc2⟩ := ihRL sv1.1 xs sv2 hst1
              (fun y hy => hall y (List.mem_cons_of_mem _ hy)) h2
            subst hok
            refine ⟨hst2, ?_, hc2.trans hc1⟩
            intro y hy
            rcases List.mem_cons.mp hy with rfl | hy
            · exact hx1
            · exact hys y hy
          | error m => rw [h2] at hok; simp [EvalResult.bind] at hok
          | panicked m => rw [h2] at hok; simp [EvalResult.bind] at hok
        | error m => rw [h1] at hok; simp [EvalResult.bind] at hok
        | panicked m => rw [h1] at hok; simp [EvalResult.bind] at hok
    -- convert_lambda
    · intro comps r hall hok
      rcases comps with _ | ⟨kwd, _ | ⟨args, _ | ⟨body, _ | ⟨extra, more⟩⟩⟩⟩ <;>
        simp only [convertLambda] at hok
      case nil => simp at hok
      case cons.nil => simp at hok
      case cons.cons.nil => simp at hok
      case cons.cons.cons.cons => simp at hok
      case cons.cons.cons.nil =>
        cases hcb : convertExprWithCont n body (Value.name "@@k") with
        | ok bodyConv =>
          rw [hcb] at hok
          simp only [EvalResult.bind, EvalResult.ok.injEq] at hok
          subst hok
          have hbody : ncCount bodyConv = 0 := by
            have := ihC body (Value.name "@@k") bodyConv
              (hall body (by simp)).1 (hall body (by simp)).2 hcb
            simpa [ncCount] using this
          have hargs : ncCount args = 0 := (hall args (by simp)).2
          have hkwd : ncCount kwd = 0 := (hall kwd (by simp)).2
          refine ncCount_consList_zero _ ?_
          intro y hy
          rcases List.mem_cons.mp hy with rfl | hy
          · exact hkwd
          rcases List.mem_cons.mp hy with rfl | hy
          · cases args <;>
              simp only [ncCount, Value.consList, List.foldr] at hargs <;>
              simp [ncCount, Value.consList, List.foldr, hargs]
          rcases List.mem_cons.mp hy with rfl | hy
          · exact hbody
          · simp at hy
        | error m => rw [hcb] at hok; simp [EvalResult.bind] at hok
        | panicked m => rw [hcb] at hok; simp [EvalResult.bind] at hok
    -- convert_quote
    · intro st comps sv hst hall hok
      rcases comps with _ | ⟨c0, _ | ⟨c1, _ | ⟨extra, more⟩⟩⟩ <;>
        simp only [convertQuote] at hok
      case nil => simp at hok
      case cons.nil => simp at hok
      case cons.cons.cons => simp at hok
      case cons.cons.nil =>
        cases hau : applyUnquote n st c1 with
        | ok svu =>
          rw [hau] at hok
          simp only [EvalResult.bind, EvalResult.ok.injEq] at hok
          obtain ⟨hstu, hquo, hcu⟩ := ihU st c1 svu hst (hall c1 (by simp)).1
            (hall c1 (by simp)).2 hau
          subst hok
          refine ⟨?_, ncCount_label _, hcu⟩
          intro v hv
          rcases List.mem_append.mp hv with hv | hv
          · exact hstu v hv
          · simp only [List.mem_singleton] at hv
            subst hv
            refine ncCount_consList_zero _ ?_
            intro y hy
            rcases List.mem_cons.mp hy with rfl | hy
            · exact (hall y (by simp)).2
            · simp only [List.mem_singleton] at hy
              subst hy
              exact hquo
        | error m => rw [hau] at hok; simp [EvalResult.bind] at hok
        | panicked m => rw [hau] at hok; simp [EvalResult.bind] at hok
    -- apply_unquote
    · intro st e sv hst hif hnc hok
      cases htl : Value.toList e with
      | none =>
        simp only [applyUnquote, htl, EvalResult.ok.injEq] at hok
        subst hok
        exact ⟨hst, hnc, rfl⟩
      | some comps =>
        have hmem : ∀ x ∈ comps, ifFree x = true ∧ ncCount x = 0 := fun x hx =>
          ⟨toList_ifFree e comps htl hif x hx, toList_ncCount e comps htl hnc x hx⟩
        cases comps with
        | nil =>
          simp only [applyUnquote, htl, EvalResult.ok.injEq] at hok
          subst hok
          exact ⟨hst, hnc, rfl⟩
        | cons c0 rest =>
          simp only [applyUnquote, htl] at hok
          by_cases hu : c0.nameStr = "&unquote"
          · rw [if_pos hu] at hok
            rcases rest with _ | ⟨arg, _ | ⟨extra, more⟩⟩
            · simp at hok
            · have hok' : (recursiveConvertExpr n st arg).bind
                  (fun sv => EvalResult.ok (sv.1, continuationLabel sv.1)) = .ok sv := hok
              cases hre : recursiveConvertExpr n st arg with
              | ok svr =>
                rw [hre] at hok'
                simp only [EvalResult.bind, EvalResult.ok.injEq] at hok'
                obtain ⟨hstr, _, hcr⟩ := ihR st arg svr hst (hmem arg (by simp)).1
                  (hmem arg (by simp)).2 hre
                subst hok'
                exact ⟨hstr, ncCount_label _, hcr⟩
              | error m => rw [hre] at hok'; simp [EvalResult.bind] at hok'
              | panicked m => rw [hre] at hok'; simp [EvalResult.bind] at hok'
            · simp at hok
          · rw [if_neg hu] at hok
            cases hal : applyUnquoteList n st (c0 :: rest) with
            | ok svl =>
              rw [hal] at hok
              simp only [EvalResult.bind, EvalResult.ok.injEq] at hok
              obtain ⟨hstl, hys, hcl⟩ := ihUL st (c0 :: rest) svl hst hmem hal
              subst hok
              exact ⟨hstl, ncCount_consList_zero _ hys, hcl⟩
            | error m => rw [hal] at hok; simp [EvalResult.bind] at hok
            | panicked m => rw [hal] at hok; simp [EvalResult.bind] at hok
    -- apply_unquote loop over components
    · intro st es sv hst hall hok
      cases es with
      | nil =>
        simp only [applyUnquoteList, EvalResult.ok.injEq] at hok
        subst hok
        exact ⟨hst, by simp, rfl⟩
      | cons x xs =>
        simp only [applyUnquoteList] at hok
        cases h1 : applyUnquote n st x with
        | ok sv1 =>
          rw [h1] at hok
          simp only [EvalResult.bind] at hok
          cases h2 : applyUnquoteList n sv1.1 xs with
          | ok sv2 =>
            rw [h2] at hok
            simp only [EvalResult.bind, EvalResult.ok.injEq] at hok
            obtain ⟨hst1, hx1, hc1⟩ := ihU st x sv1 hst (hall x (by simp)).1
              (hall x (by simp)).2 h1
            obtain ⟨hst2, hys, hc2⟩ := ihUL sv1.1 xs sv2 hst1
              (fun y hy => hall y (List.mem_cons_of_mem _ hy)) h2
            subst hok
            refine ⟨hst2, ?_, hc2.trans hc1⟩
            intro y hy
            rcases List.mem_cons.mp hy with rfl | hy
            · exact hx1
            · exact hys y hy
          | error m => rw [h2] at hok; simp [EvalResult.bind] at hok
          | panicked m => rw [h2] at hok; simp [EvalResult.bind] at hok
        | error m => rw [h1] at hok; simp [EvalResult.bind] at hok
        | panicked m => rw [h1] at hok; simp [EvalResult.bind] at hok

/-- C1 (counterexample): converting the source expression (&if &x &y &z)
duplicates the initial continuation: the converted tree contains two
occurrences of the Name no-continuation (one per branch), not exactly
one — both branches are converted with the same surrounding
continuation, which is copied textually into each. -/
theorem cps_if_duplicates_continuation :
    convertExpr 20 ifFixture = .ok ifFixtureConverted
  ∧ ncCount ifFixtureConverted = 2 :=
  ⟨rfl, rfl⟩

/-- C1 (amended): for a source expression that is free of &if (and, being a
formatted source expression, contains no occurrence of the Name
no-continuation), any successful conversion by convert_expr produces a tree
with exactly one occurrence of no-continuation; each (&if c t f) instead
duplicates the surrounding continuation into both branches, doubling the
count (see the counterexample). -/
theorem cps_single_continuation (fuel : Nat) (e r : Value)
    (hif : ifFree e = true) (hnc : ncCount e = 0)
    (hok : convertExpr fuel e = .ok r) : ncCount r = 1 := by
  have h := (cps_nc_invariant fuel).1 e (.name "no-continuation") r hif hnc hok
  simpa [ncCount] using h

/-- C1 witness: the amended claim applied to the if-free call (&f &a),
whose conversion (&f no-continuation &a) has exactly one occurrence. -/
theorem cps_single_continuation_witness :
    ncCount (Value.consList [.name "&f", .name "no-continuation", .name "&a"]) = 1 :=
  cps_single_continuation 10 (Value.consList [.name "&f", .name "&a"])
    (Value.consList [.name "&f", .name "no-continuation", .name "&a"])
    (by decide) (by decide) (by decide)
